import Mathlib

set_option maxHeartbeats 1000000

/-!
Verification development for the Beringei client core
(`beringei/client/BeringeiClientImpl.cpp`).

The definitions below are a shallow embedding of the client code.  External
collaborators (the bounded write queues, the network client, wall-clock time)
are passed in as explicit parameters or oracles: for example, whether a
queue `push` succeeds is a boolean supplied by the environment, and the
per-key server responses of a replica are a function from keys to result
entries.  Machine integers are modelled as `Int`/`Nat` (none of the verified
paths can overflow 64-bit counters on the inputs considered, and the claims
do not concern overflow behaviour).  The `double` value of a data point is
opaque to all of the verified code paths, so it is modelled as an `Int`
payload that is never inspected.
-/

namespace Beringei

/-- Status codes of a per-key server response (`StatusCode` in the thrift
interface), exactly the constructors matched by
`BeringeiClientImpl::getWithClient`. -/
inductive StatusCode
  | OK
  | KEY_MISSING
  | RPC_FAIL
  | ZIPPY_STORAGE_FAIL
  | DONT_OWN_SHARD
  | SHARD_IN_PROGRESS
  | MISSING_TOO_MUCH_DATA
  | BUCKET_NOT_FINALIZED
deriving DecidableEq, Repr

/-- A logical key: `(string name, int64 shard id)`.  Field names follow the
thrift accessors `get_key()` / `get_shardId()`. -/
structure Key where
  key : String
  shardId : Int
deriving DecidableEq, Repr

/-- A data point.  The timestamp and value are opaque to every code path
modelled here; the value (a `double` in the source) is carried as an
uninspected `Int` payload. -/
structure DataPoint where
  key : Key
  unixTime : Int
  value : Int
deriving DecidableEq, Repr

/-- One per-key result entry (`TimeSeriesData`): a status plus a list of
encoded blocks.  The block contents are opaque; only `data.size()`
comparisons occur in the client, so blocks are modelled as `Nat` tokens. -/
structure TimeSeriesData where
  status : StatusCode
  data : List Nat
deriving DecidableEq, Repr

/-- A retry operation (`BeringeiClientImpl::RetryOperation`): the network
client it should be re-sent through (modelled as a handle id), the data
points, and the retry deadline in unix seconds.  An operation with an empty
point vector is the shutdown sentinel. -/
structure RetryOperation where
  client : Nat
  dataPoints : List DataPoint
  retryTimeSecs : Int
deriving DecidableEq, Repr

/-! ## Write path: putDataPoints (lines 357-394) -/

def kEnqueueDroppedKey : String := "gorilla_client.enqueue_dropped."
def kEnqueuedKey : String := "gorilla_client.enqueued."
def kQueueSizeKey : String := "gorilla_client.queue_size."

/-- The environment of one write client as seen by `putDataPoints`:
its service name, whether `queue.push` succeeds on the offered batch, and
the queue size observed by `queue.size()` after the push. -/
structure WriteClient where
  serviceName : String
  pushOk : Bool
  queueSize : Nat
deriving DecidableEq, Repr

/-- Everything observable about one `putDataPoints` call: the returned
boolean, the stat counter values added (key, amount) in order, and the
batches offered to each queue (client index, batch). -/
structure PutOutcome where
  returned : Bool
  stats : List (String × Int)
  pushes : List (Nat × List DataPoint)
deriving DecidableEq, Repr

/-- Stats emitted for one write client inside the `putDataPoints` loop:
`enqueued.<svc> += n` on success, `enqueue_dropped.<svc> += n` on failure,
then `queue_size.<svc>` with the observed size (lines 378-386). -/
def putStatsFor (c : WriteClient) (numPoints : Nat) : List (String × Int) :=
  (if c.pushOk then [(kEnqueuedKey ++ c.serviceName, (numPoints : Int))]
   else [(kEnqueueDroppedKey ++ c.serviceName, (numPoints : Int))])
  ++ [(kQueueSizeKey ++ c.serviceName, (c.queueSize : Int))]

/-- Model of `BeringeiClientImpl::putDataPoints` (lines 357-394).  An empty
batch short-circuits to `true` before the loop; otherwise the batch is
offered to every write client's queue (the last iteration moves instead of
copies, which does not change the pushed contents) and the return value is
the fold of `allPushedToAnyScope = success || ...`. -/
def putDataPoints (clients : List WriteClient) (values : List DataPoint) :
    PutOutcome :=
  if values.length = 0 then
    { returned := true, stats := [], pushes := [] }
  else
    { returned := clients.foldl (fun acc c => acc || c.pushOk) false
      stats := (clients.map (fun c => putStatsFor c values.length)).flatten
      pushes := (List.range clients.length).map (fun i => (i, values)) }

/-! ## Write worker retry enqueue (writeDataPointsForever, lines 737-759) -/

/-- Observable outcome of the retry-enqueue block at the end of one
write-worker iteration. -/
structure WriteWorkerRetryOutcome where
  enqueuedOp : Option RetryOperation
  pendingAfter : Int
  writeFailures : Nat
  droppedPermanently : Bool
  putRetryStat : Option Nat
deriving DecidableEq, Repr

/-- Model of the drop-handling tail of one `writeDataPointsForever`
iteration (lines 737-759).  `locallyDropped` are the points the network
client refused while building the request, `serverDropped` those returned
by `performPut`; `pending` is `numRetryQueuedDataPoints_`, `capacity` is
`FLAGS_gorilla_retry_queue_capacity`, and `queueAccepts` says whether
`retryQueue_.write` would succeed.  The capacity test short-circuits the
queue write exactly as `a >= cap || !write(op)` does. -/
def writeWorkerRetryStep (clientId : Nat)
    (locallyDropped serverDropped : List DataPoint)
    (pending capacity : Int) (queueAccepts : Bool)
    (now retryDelaySecs : Int) : WriteWorkerRetryOutcome :=
  let droppedDataPoints := locallyDropped ++ serverDropped
  if droppedDataPoints.length = 0 then
    { enqueuedOp := none, pendingAfter := pending, writeFailures := 0
      droppedPermanently := false, putRetryStat := none }
  else
    let droppedCount : Int := droppedDataPoints.length
    let op : RetryOperation :=
      { client := clientId, dataPoints := droppedDataPoints
        retryTimeSecs := now + retryDelaySecs }
    if capacity ≤ pending + droppedCount ∨ queueAccepts = false then
      { enqueuedOp := none, pendingAfter := pending, writeFailures := 1
        droppedPermanently := true, putRetryStat := none }
    else
      { enqueuedOp := some op, pendingAfter := pending + droppedCount
        writeFailures := 0, droppedPermanently := false
        putRetryStat := some droppedDataPoints.length }

/-! ## Retry worker (retryThread, lines 795-843) -/

/-- Threshold below which a dequeued retry batch is considered too old
(line 128: `kRetryThresholdSecs = 30`). -/
def kRetryThresholdSecs : Int := 30

/-- What one retry-thread iteration did with the dequeued operation. -/
inductive RetryThreadAction
  | shutdown
  | tooOldDiscard
  | sendOnce (sleptSecs : Int)
deriving DecidableEq, Repr

/-- Observable outcome of one `retryThread` loop iteration. -/
structure RetryThreadOutcome where
  pendingAfter : Int
  action : RetryThreadAction
  putCalls : Nat
  requeued : List RetryOperation
  droppedLogged : Nat
deriving DecidableEq, Repr

/-- Model of one `retryThread` loop iteration (lines 795-843) on a dequeued
operation `op` at wall-clock time `now`.  `addDropped` is the oracle for
which points `addDataPointToRequest` refuses while rebuilding the request;
`serverDropped` is what the single `performPut` returns.  The pending
counter is decremented unconditionally right after the blocking read; the
sentinel (empty points) exits; a deadline older than `now - 30` is
discarded with a log; a future deadline is slept through, after which
exactly one re-put is performed and its drops are only logged, never
re-enqueued. -/
def retryThreadStep (op : RetryOperation) (now pending : Int)
    (addDropped : DataPoint → Bool) (serverDropped : List DataPoint) :
    RetryThreadOutcome :=
  let pendingAfter := pending - op.dataPoints.length
  if op.dataPoints.length = 0 then
    { pendingAfter := pendingAfter, action := .shutdown, putCalls := 0
      requeued := [], droppedLogged := 0 }
  else if op.retryTimeSecs < now - kRetryThresholdSecs then
    { pendingAfter := pendingAfter, action := .tooOldDiscard, putCalls := 0
      requeued := [], droppedLogged := op.dataPoints.length }
  else
    let sleptSecs := if now < op.retryTimeSecs then op.retryTimeSecs - now else 0
    let totalDropped :=
      (op.dataPoints.filter addDropped).length + serverDropped.length
    { pendingAfter := pendingAfter, action := .sendOnce sleptSecs
      putCalls := 1, requeued := [], droppedLogged := totalDropped }

/-! ## flushQueue vs stopWriterThreads (lines 281-311) -/

/-- C++ integer division as used on `size_t` operands; division by zero is
undefined behaviour, modelled as `none`. -/
def cppDiv (a b : Nat) : Option Nat :=
  if b = 0 then none else some (a / b)

/-- Model of the first line of `BeringeiClientImpl::flushQueue` (line 308):
`writers_.size() / writeClients_.size()` with no emptiness guard. -/
def flushQueueThreadsPerClient (writers writeClients : Nat) : Option Nat :=
  cppDiv writers writeClients

/-- Model of the guarded computation in
`BeringeiClientImpl::stopWriterThreads` (lines 283-288): the per-client
flush counts are computed only under `if (writeClients_.size())`, so the
function is total. -/
def stopWriterThreadsFlushCounts (writers writeClients : Nat) :
    Option (List Nat) :=
  if writeClients = 0 then some []
  else (cppDiv writers writeClients).map fun t => List.replicate writeClients t

/-! ## Sequential read path

Model of `BeringeiClientImpl::getWithClient` (lines 396-480) and the
replica loop of the sequential `BeringeiClientImpl::get` (lines 482-572).
A replica's servers are modelled as a per-key response oracle
`Key → TimeSeriesData`; the per-host request partitioning inside
`getWithClient` distributes the same classification over the same keys, so
the classification is modelled directly over the request's key list.  Each
replica carries two oracles: one for the first call and one for the
in-service retry performed after the shard-cache invalidation.  In the
sequential `get`, the `inProgressKeys` and `partialDataKeys` output
pointers of `getWithClient` both point at the same `partialKeys` vector
(or are null), so the state carries a single shared list
(`inProgressKeys`) guarded by the two nullness flags. -/

/-- The mutable state threaded through `getWithClient`: the accumulated
result entries, the found keys (written back into `request.keys`), the
failed keys, and the shared in-progress/partial-data key list. -/
structure GetState where
  results : List TimeSeriesData
  foundKeys : List Key
  failedKeys : List Key
  inProgressKeys : List Key
deriving DecidableEq, Repr

/-- Classification of one per-key response, the `switch` at lines 428-477.
`keepInProgress` is true when the caller passed a non-null
`inProgressKeys` pointer, `keepMissingData` likewise for
`partialDataKeys`.  `none` models the fatal `CHECK(false)` on
`BUCKET_NOT_FINALIZED`. -/
def classifyOne (resp : Key → TimeSeriesData)
    (keepInProgress keepMissingData : Bool) (k : Key) (s : GetState) :
    Option GetState :=
  let e := resp k
  match e.status with
  | .OK =>
    some { s with results := s.results ++ [e], foundKeys := s.foundKeys ++ [k] }
  | .KEY_MISSING => some s
  | .RPC_FAIL => some { s with failedKeys := s.failedKeys ++ [k] }
  | .ZIPPY_STORAGE_FAIL => some { s with failedKeys := s.failedKeys ++ [k] }
  | .DONT_OWN_SHARD => some { s with failedKeys := s.failedKeys ++ [k] }
  | .SHARD_IN_PROGRESS =>
    if keepInProgress then
      some { s with inProgressKeys := s.inProgressKeys ++ [k] }
    else if 0 < e.data.length then
      some { s with results := s.results ++ [e], foundKeys := s.foundKeys ++ [k] }
    else some s
  | .MISSING_TOO_MUCH_DATA =>
    if keepMissingData then
      some { s with inProgressKeys := s.inProgressKeys ++ [k] }
    else if 0 < e.data.length then
      some { s with results := s.results ++ [e], foundKeys := s.foundKeys ++ [k] }
    else some s
  | .BUCKET_NOT_FINALIZED => none

/-- Model of `BeringeiClientImpl::getWithClient`: classify every requested
key's response in request order. -/
def getWithClient (resp : Key → TimeSeriesData)
    (keepInProgress keepMissingData : Bool) :
    List Key → GetState → Option GetState
  | [], s => some s
  | k :: ks, s =>
    match classifyOne resp keepInProgress keepMissingData k s with
    | none => none
    | some s' => getWithClient resp keepInProgress keepMissingData ks s'

/-- Lookup in the captured `keyShards` map (lines 487-490): built with
`keyShards[key.get_key()] = key.get_shardId()`, so the last key with a
given name wins — equivalently the first match in the reversed list. -/
def keyShardLookup (orig : List Key) (name : String) : Option Int :=
  (orig.reverse.find? (fun k => k.key == name)).map (·.shardId)

/-- Restoration of one key's original shard id (lines 566-570). -/
def restoreKey (orig : List Key) (k : Key) : Key :=
  match keyShardLookup orig k.key with
  | some id => { k with shardId := id }
  | none => k

/-- Restoration of the shard ids of a retried key list (lines 565-570). -/
def restoreShardIds (orig : List Key) (keys : List Key) : List Key :=
  keys.map (restoreKey orig)

/-- Both residual vectors empty, `failedKeys.empty() && partialKeys.empty()`
(lines 524 and 552). -/
def emptyResidual (s : GetState) : Bool :=
  s.failedKeys.isEmpty && s.inProgressKeys.isEmpty

/-- First `getWithClient` call of one replica iteration (lines 512-520).
The `inProgressKeys` pointer is non-null iff
`throwExceptionOnTransientFailure_ || !lastIteration`; the
`partialDataKeys` pointer is non-null iff `!lastIteration`. -/
def iterPhase1 (strict last : Bool) (f1 : Key → TimeSeriesData)
    (ck : List Key) (results : List TimeSeriesData) (found : List Key) :
    Option GetState :=
  getWithClient f1 (strict || !last) (!last) ck
    { results := results, foundKeys := found, failedKeys := []
      inProgressKeys := [] }

/-- The optional in-service retry (lines 530-549): performed only when
`failedKeys` is non-empty, re-requesting exactly the failed keys after the
cache invalidation (a no-op at this level), with `failedKeys` cleared
first. -/
def iterPhase2 (strict last : Bool) (f2 : Key → TimeSeriesData)
    (s1 : GetState) : Option GetState :=
  if s1.failedKeys.isEmpty then some s1
  else getWithClient f2 (strict || !last) (!last) s1.failedKeys
    { s1 with failedKeys := [] }

/-- Result of one iteration of the replica loop in `get`. -/
inductive IterRes
  | aborted
  | broke (results : List TimeSeriesData) (foundKeys : List Key)
  | thrownRes
  | next (nextKeys : List Key) (results : List TimeSeriesData)
      (foundKeys : List Key)
deriving DecidableEq, Repr

/-- One iteration of the replica loop (lines 497-571): first call, break on
no residual, optional retry of the failed keys, break on no residual,
throw on the last iteration in strict mode, otherwise merge
failed + partial keys, restore their original shard ids, and move on. -/
def getIteration (strict last : Bool) (f1 f2 : Key → TimeSeriesData)
    (orig : List Key) (ck : List Key) (results : List TimeSeriesData)
    (found : List Key) : IterRes :=
  match iterPhase1 strict last f1 ck results found with
  | none => .aborted
  | some s1 =>
    if emptyResidual s1 then .broke s1.results s1.foundKeys
    else
      match iterPhase2 strict last f2 s1 with
      | none => .aborted
      | some s2 =>
        if emptyResidual s2 then .broke s2.results s2.foundKeys
        else if last && strict then .thrownRes
        else
          .next (restoreShardIds orig (s2.failedKeys ++ s2.inProgressKeys))
            s2.results s2.foundKeys

/-- A request actually sent to a server: replica index, attempt (0 for the
first call, 1 for the in-service retry), and the requested keys. -/
abbrev TraceEntry := Nat × Nat × List Key

/-- The requests sent during one replica iteration: the first call always
happens; the retry happens iff the first call did not abort, some residual
remained, and `failedKeys` was non-empty. -/
def iterTrace (i : Nat) (strict last : Bool) (f1 : Key → TimeSeriesData)
    (ck : List Key) (results : List TimeSeriesData) (found : List Key) :
    List TraceEntry :=
  (i, 0, ck) ::
    match iterPhase1 strict last f1 ck results found with
    | none => []
    | some s1 =>
      if emptyResidual s1 then []
      else if s1.failedKeys.isEmpty then []
      else [(i, 1, s1.failedKeys)]

/-- The per-replica response oracles: first call and in-service retry. -/
abbrev ReplicaResp := (Key → TimeSeriesData) × (Key → TimeSeriesData)

/-- Observable outcome of a sequential `get`: fatal abort
(`BUCKET_NOT_FINALIZED`), a thrown `std::runtime_error`, or a normal return
carrying the rewritten `request.keys` and `result.results`. -/
inductive SeqOutcome
  | aborted
  | thrown
  | ok (keys : List Key) (results : List TimeSeriesData)
deriving DecidableEq, Repr

/-- The replica loop of `BeringeiClientImpl::get` (lines 497-571),
instrumented with the trace of sent requests.  `orig` is the key list used
to build the `keyShards` restoration map; `i` is the current replica
index. -/
def getLoop (strict : Bool) (orig : List Key) :
    List ReplicaResp → Nat → List Key → List TimeSeriesData → List Key →
      List TraceEntry × SeqOutcome
  | [], _, _, results, found => ([], .ok found results)
  | (f1, f2) :: rest, i, ck, results, found =>
    let last := rest.isEmpty
    let tr := iterTrace i strict last f1 ck results found
    match getIteration strict last f1 f2 orig ck results found with
    | .aborted => (tr, .aborted)
    | .broke res fnd => (tr, .ok fnd res)
    | .thrownRes => (tr, .thrown)
    | .next nk res fnd =>
      let out := getLoop strict orig rest (i + 1) nk res fnd
      (tr ++ out.1, out.2)

/-- The sequential `BeringeiClientImpl::get` (lines 482-572): capture the
`keyShards` map from the original request keys, clear `request.keys`, and
run the replica loop starting from the original keys. -/
def seqGet (strict : Bool) (replicas : List ReplicaResp)
    (origKeys : List Key) : List TraceEntry × SeqOutcome :=
  getLoop strict origKeys replicas 0 origKeys [] []

/-- The server response for key `k` at replica `i`, attempt `a` (0 = first
call, 1 = in-service retry). -/
def respAt (replicas : List ReplicaResp) (i a : Nat) (k : Key) :
    Option TimeSeriesData :=
  match replicas.get? i with
  | none => none
  | some (f1, f2) => some (if a = 0 then f1 k else f2 k)

/-- Entry `e` is a response some replica actually gave for key `k`. -/
def Served (replicas : List ReplicaResp) (k : Key) (e : TimeSeriesData) :
    Prop :=
  ∃ i a, respAt replicas i a k = some e

/-- The statuses routed to `failedKeys` (lines 437-441). -/
def failStatus (e : TimeSeriesData) : Prop :=
  e.status = .RPC_FAIL ∨ e.status = .ZIPPY_STORAGE_FAIL ∨
    e.status = .DONT_OWN_SHARD

/-- The conditions under which a response is routed to the shared
in-progress/partial list, given the two pointer-nullness flags. -/
def keepsEntry (e : TimeSeriesData) (u p : Bool) : Prop :=
  (e.status = .SHARD_IN_PROGRESS ∧ u = true) ∨
    (e.status = .MISSING_TOO_MUCH_DATA ∧ p = true)

/-- The conditions under which a response is accepted into the result,
given the two pointer-nullness flags. -/
def acceptsEntry (e : TimeSeriesData) (u p : Bool) : Prop :=
  e.status = .OK ∨
    (e.status = .SHARD_IN_PROGRESS ∧ u = false ∧ 0 < e.data.length) ∨
    (e.status = .MISSING_TOO_MUCH_DATA ∧ p = false ∧ 0 < e.data.length)

/-! ## Theorems for the write-path claims -/

lemma foldl_or_pushOk (l : List WriteClient) (b : Bool) :
    l.foldl (fun acc c => acc || c.pushOk) b = (b || l.any (·.pushOk)) := by
  induction l generalizing b with
  | nil => simp
  | cons c l ih => simp [List.foldl_cons, ih, Bool.or_assoc]

/-- Claim C1: for a non-empty batch, `putDataPoints` returns true iff at
least one write service's queue accepted the pushed batch; if every queue
refuses, it returns false. -/
theorem putDataPoints_true_iff_anyAccepted
    (clients : List WriteClient) (values : List DataPoint)
    (h : values ≠ []) :
    (putDataPoints clients values).returned = true ↔
      ∃ c ∈ clients, c.pushOk = true := by
  have hlen : ¬ values.length = 0 := by simpa using h
  simp only [putDataPoints, if_neg hlen]
  rw [foldl_or_pushOk]
  simp [List.any_eq_true]

/-- Witness for C1: with two clients of which only the second accepts, a
singleton batch returns true. -/
theorem putDataPoints_true_iff_anyAccepted_witness :
    ([⟨⟨"k", 0⟩, 0, 0⟩] : List DataPoint) ≠ [] ∧
      ((putDataPoints [⟨"svcA", false, 3⟩, ⟨"svcB", true, 5⟩]
        [⟨⟨"k", 0⟩, 0, 0⟩]).returned = true ↔
        ∃ c ∈ [(⟨"svcA", false, 3⟩ : WriteClient), ⟨"svcB", true, 5⟩],
          c.pushOk = true) :=
  ⟨by decide,
   putDataPoints_true_iff_anyAccepted
     [⟨"svcA", false, 3⟩, ⟨"svcB", true, 5⟩] [⟨⟨"k", 0⟩, 0, 0⟩]
     (by decide)⟩

/-- Claim C9: calling `putDataPoints` with an empty point vector returns
true while pushing nothing to any queue and emitting no stat updates. -/
theorem putDataPoints_empty_batch (clients : List WriteClient) :
    putDataPoints clients [] =
      { returned := true, stats := [], pushes := [] } :=
  rfl

/-- Claim C5: in a write-worker iteration with a non-empty merged dropped
set, a retry operation with deadline `now + retryDelaySecs` is enqueued iff
`pending + droppedCount < capacity` and the retry queue accepts the write;
otherwise the batch is dropped permanently with a log entry and the
write-failures counter incremented; on success the pending counter grows by
the dropped count. -/
theorem writeWorkerRetryStep_spec (clientId : Nat)
    (locallyDropped serverDropped : List DataPoint)
    (pending capacity : Int) (queueAccepts : Bool) (now retryDelaySecs : Int)
    (h : locallyDropped ++ serverDropped ≠ []) :
    ((writeWorkerRetryStep clientId locallyDropped serverDropped pending
        capacity queueAccepts now retryDelaySecs).enqueuedOp =
      some { client := clientId, dataPoints := locallyDropped ++ serverDropped
             retryTimeSecs := now + retryDelaySecs } ↔
      pending + ((locallyDropped ++ serverDropped).length : Int) < capacity ∧
        queueAccepts = true) ∧
    ((writeWorkerRetryStep clientId locallyDropped serverDropped pending
        capacity queueAccepts now retryDelaySecs).enqueuedOp = none →
      (writeWorkerRetryStep clientId locallyDropped serverDropped pending
        capacity queueAccepts now retryDelaySecs).droppedPermanently = true ∧
      (writeWorkerRetryStep clientId locallyDropped serverDropped pending
        capacity queueAccepts now retryDelaySecs).writeFailures = 1) ∧
    ((writeWorkerRetryStep clientId locallyDropped serverDropped pending
        capacity queueAccepts now retryDelaySecs).enqueuedOp ≠ none →
      (writeWorkerRetryStep clientId locallyDropped serverDropped pending
        capacity queueAccepts now retryDelaySecs).pendingAfter =
        pending + ((locallyDropped ++ serverDropped).length : Int)) := by
  have hlen : ¬ (locallyDropped ++ serverDropped).length = 0 := by
    intro hc
    exact h (List.length_eq_zero.mp hc)
  by_cases hcap :
      capacity ≤ pending + ((locallyDropped ++ serverDropped).length : Int) ∨
        queueAccepts = false
  · have he : writeWorkerRetryStep clientId locallyDropped serverDropped
        pending capacity queueAccepts now retryDelaySecs =
        { enqueuedOp := none, pendingAfter := pending, writeFailures := 1
          droppedPermanently := true, putRetryStat := none } := by
      simp only [writeWorkerRetryStep]
      rw [if_neg hlen, if_pos hcap]
    rw [he]
    refine ⟨⟨fun hx => Option.noConfusion hx, ?_⟩,
      fun _ => ⟨rfl, rfl⟩, fun hx => absurd rfl hx⟩
    rintro ⟨hlt, hq⟩
    rcases hcap with hc | hc
    · exact absurd hlt (by omega)
    · rw [hq] at hc; exact Bool.noConfusion hc
  · have he : writeWorkerRetryStep clientId locallyDropped serverDropped
        pending capacity queueAccepts now retryDelaySecs =
        { enqueuedOp :=
            some { client := clientId
                   dataPoints := locallyDropped ++ serverDropped
                   retryTimeSecs := now + retryDelaySecs }
          pendingAfter :=
            pending + ((locallyDropped ++ serverDropped).length : Int)
          writeFailures := 0, droppedPermanently := false
          putRetryStat := some (locallyDropped ++ serverDropped).length } := by
      simp only [writeWorkerRetryStep]
      rw [if_neg hlen, if_neg hcap]
    rw [he]
    push_neg at hcap
    exact ⟨⟨fun _ => ⟨hcap.1, by simpa using hcap.2⟩, fun _ => rfl⟩,
      fun hx => Option.noConfusion hx, fun _ => rfl⟩

/-- Witness for C5: one dropped point, pending 0, capacity 10000, queue
accepting, now 100, delay 55, so the operation is enqueued with deadline
155 and the pending counter becomes 1. -/
theorem writeWorkerRetryStep_spec_witness :
    (writeWorkerRetryStep 0 [⟨⟨"k", 0⟩, 0, 0⟩] [] 0 10000 true
        100 55).enqueuedOp =
      some { client := 0, dataPoints := [⟨⟨"k", 0⟩, 0, 0⟩]
             retryTimeSecs := 155 } ∧
    (writeWorkerRetryStep 0 [⟨⟨"k", 0⟩, 0, 0⟩] [] 0 10000 true
        100 55).pendingAfter = 1 := by
  have h := writeWorkerRetryStep_spec 0 [⟨⟨"k", 0⟩, 0, 0⟩] [] 0 10000 true
    100 55 (by decide)
  refine ⟨h.1.mpr ⟨by decide, rfl⟩, ?_⟩
  have := h.2.2 (by rw [h.1.mpr ⟨by decide, rfl⟩]; simp)
  simpa using this

/-- Claim C6: a non-sentinel retry operation whose deadline is older than
`now - kRetryThresholdSecs` is discarded with a too-old log and no re-put;
otherwise exactly one re-put happens, preceded by a sleep until the
deadline when the deadline is in the future, and nothing is ever
re-enqueued. -/
theorem retryThreadStep_spec (op : RetryOperation) (now pending : Int)
    (addDropped : DataPoint → Bool) (serverDropped : List DataPoint)
    (h : op.dataPoints ≠ []) :
    (op.retryTimeSecs < now - kRetryThresholdSecs →
      (retryThreadStep op now pending addDropped serverDropped).action =
          .tooOldDiscard ∧
        (retryThreadStep op now pending addDropped serverDropped).putCalls = 0) ∧
    (¬ op.retryTimeSecs < now - kRetryThresholdSecs →
      (retryThreadStep op now pending addDropped serverDropped).putCalls = 1 ∧
      (now < op.retryTimeSecs →
        (retryThreadStep op now pending addDropped serverDropped).action =
          .sendOnce (op.retryTimeSecs - now)) ∧
      (¬ now < op.retryTimeSecs →
        (retryThreadStep op now pending addDropped serverDropped).action =
          .sendOnce 0)) ∧
    (retryThreadStep op now pending addDropped serverDropped).requeued = [] := by
  have hlen : ¬ op.dataPoints.length = 0 := by
    intro hc
    exact h (List.length_eq_zero.mp hc)
  by_cases hold : op.retryTimeSecs < now - kRetryThresholdSecs
  · have he : retryThreadStep op now pending addDropped serverDropped =
        { pendingAfter := pending - (op.dataPoints.length : Int)
          action := .tooOldDiscard, putCalls := 0, requeued := []
          droppedLogged := op.dataPoints.length } := by
      simp only [retryThreadStep]
      rw [if_neg hlen, if_pos hold]
    rw [he]
    exact ⟨fun _ => ⟨rfl, rfl⟩, fun hc => absurd hold hc, rfl⟩
  · by_cases hfut : now < op.retryTimeSecs
    · have he : retryThreadStep op now pending addDropped serverDropped =
          { pendingAfter := pending - (op.dataPoints.length : Int)
            action := .sendOnce (op.retryTimeSecs - now), putCalls := 1
            requeued := []
            droppedLogged :=
              (op.dataPoints.filter addDropped).length +
                serverDropped.length } := by
        simp only [retryThreadStep]
        rw [if_neg hlen, if_neg hold, if_pos hfut]
      rw [he]
      exact ⟨fun hc => absurd hc hold,
        fun _ => ⟨rfl, fun _ => rfl, fun hc => absurd hfut hc⟩, rfl⟩
    · have he : retryThreadStep op now pending addDropped serverDropped =
          { pendingAfter := pending - (op.dataPoints.length : Int)
            action := .sendOnce 0, putCalls := 1, requeued := []
            droppedLogged :=
              (op.dataPoints.filter addDropped).length +
                serverDropped.length } := by
        simp only [retryThreadStep]
        rw [if_neg hlen, if_neg hold, if_neg hfut]
      rw [he]
      exact ⟨fun hc => absurd hc hold,
        fun _ => ⟨rfl, fun hc => absurd hc hfut, fun _ => rfl⟩, rfl⟩

/-- Witness for C6: a one-point operation with deadline 155 dequeued at
time 100 sleeps 55 seconds, performs one re-put, and re-enqueues nothing. -/
theorem retryThreadStep_spec_witness :
    (retryThreadStep
        { client := 0, dataPoints := [⟨⟨"k", 0⟩, 0, 0⟩], retryTimeSecs := 155 }
        100 1 (fun _ => false) []).action = .sendOnce 55 ∧
    (retryThreadStep
        { client := 0, dataPoints := [⟨⟨"k", 0⟩, 0, 0⟩], retryTimeSecs := 155 }
        100 1 (fun _ => false) []).putCalls = 1 ∧
    (retryThreadStep
        { client := 0, dataPoints := [⟨⟨"k", 0⟩, 0, 0⟩], retryTimeSecs := 155 }
        100 1 (fun _ => false) []).requeued = [] := by
  have h := retryThreadStep_spec
    { client := 0, dataPoints := [⟨⟨"k", 0⟩, 0, 0⟩], retryTimeSecs := 155 }
    100 1 (fun _ => false) [] (by decide)
  have h2 := h.2.1 (by decide)
  exact ⟨by simpa using h2.2.1 (by decide), h2.1, h.2.2⟩

/-- Claim C10: `flushQueue` divides the writer-thread count by the number
of write clients with no guard, so the computation is undefined (division
by zero) exactly on a reader-configured client with no write clients, while
`stopWriterThreads` guards the same division with an emptiness check and is
total. -/
theorem flushQueue_division_unguarded :
    (∀ writers : Nat, flushQueueThreadsPerClient writers 0 = none) ∧
    (∀ writers writeClients : Nat, writeClients ≠ 0 →
      flushQueueThreadsPerClient writers writeClients =
        some (writers / writeClients)) ∧
    (∀ writers writeClients : Nat,
      (stopWriterThreadsFlushCounts writers writeClients).isSome = true) := by
  refine ⟨fun writers => rfl, fun writers writeClients h => ?_, ?_⟩
  · simp [flushQueueThreadsPerClient, cppDiv, h]
  · intro writers writeClients
    by_cases h : writeClients = 0
    · simp [stopWriterThreadsFlushCounts, h]
    · simp [stopWriterThreadsFlushCounts, cppDiv, h]

/-- Witness for C10: a writer client with 8 threads over 2 services gets 4
threads per client in `flushQueue`, while on 0 write clients the division
is undefined. -/
theorem flushQueue_division_unguarded_witness :
    flushQueueThreadsPerClient 8 2 = some 4 ∧
      flushQueueThreadsPerClient 8 0 = none :=
  ⟨flushQueue_division_unguarded.2.1 8 2 (by decide),
   flushQueue_division_unguarded.1 8⟩

/-! ## Classification lemmas for the read path -/

lemma classifyOne_none_iff (resp : Key → TimeSeriesData) (u p : Bool)
    (k : Key) (s : GetState) :
    classifyOne resp u p k s = none ↔
      (resp k).status = .BUCKET_NOT_FINALIZED := by
  rcases hst : (resp k).status <;>
    simp only [classifyOne, hst] <;> (try split_ifs) <;> simp [hst]

lemma classifyOne_some_shape (resp : Key → TimeSeriesData) (u p : Bool)
    (k : Key) (s s' : GetState)
    (h : classifyOne resp u p k s = some s') :
    ∃ re fo fl pr,
      s' = { results := s.results ++ re
             foundKeys := s.foundKeys ++ fo
             failedKeys := s.failedKeys ++ fl
             inProgressKeys := s.inProgressKeys ++ pr } ∧
      (fl = [] ∨ (fl = [k] ∧ failStatus (resp k))) ∧
      (pr = [] ∨ (pr = [k] ∧ keepsEntry (resp k) u p)) ∧
      ((fo = [] ∧ re = []) ∨
        (fo = [k] ∧ re = [resp k] ∧ acceptsEntry (resp k) u p)) := by
  rcases hst : (resp k).status
  case OK =>
    simp only [classifyOne, hst] at h
    refine ⟨[resp k], [k], [], [], ?_, Or.inl rfl, Or.inl rfl,
      Or.inr ⟨rfl, rfl, Or.inl hst⟩⟩
    cases h
    simp
  case KEY_MISSING =>
    simp only [classifyOne, hst] at h
    refine ⟨[], [], [], [], ?_, Or.inl rfl, Or.inl rfl, Or.inl ⟨rfl, rfl⟩⟩
    cases h
    simp
  case RPC_FAIL =>
    simp only [classifyOne, hst] at h
    refine ⟨[], [], [k], [], ?_, Or.inr ⟨rfl, Or.inl hst⟩, Or.inl rfl,
      Or.inl ⟨rfl, rfl⟩⟩
    cases h
    simp
  case ZIPPY_STORAGE_FAIL =>
    simp only [classifyOne, hst] at h
    refine ⟨[], [], [k], [], ?_, Or.inr ⟨rfl, Or.inr (Or.inl hst)⟩,
      Or.inl rfl, Or.inl ⟨rfl, rfl⟩⟩
    cases h
    simp
  case DONT_OWN_SHARD =>
    simp only [classifyOne, hst] at h
    refine ⟨[], [], [k], [], ?_, Or.inr ⟨rfl, Or.inr (Or.inr hst)⟩,
      Or.inl rfl, Or.inl ⟨rfl, rfl⟩⟩
    cases h
    simp
  case SHARD_IN_PROGRESS =>
    simp only [classifyOne, hst] at h
    by_cases hu : u = true
    · rw [if_pos hu] at h
      refine ⟨[], [], [], [k], ?_, Or.inl rfl,
        Or.inr ⟨rfl, Or.inl ⟨hst, hu⟩⟩, Or.inl ⟨rfl, rfl⟩⟩
      cases h
      simp
    · rw [if_neg hu] at h
      by_cases hd : 0 < (resp k).data.length
      · rw [if_pos hd] at h
        refine ⟨[resp k], [k], [], [], ?_, Or.inl rfl, Or.inl rfl,
          Or.inr ⟨rfl, rfl, Or.inr (Or.inl ⟨hst, by simpa using hu, hd⟩)⟩⟩
        cases h
        simp
      · rw [if_neg hd] at h
        refine ⟨[], [], [], [], ?_, Or.inl rfl, Or.inl rfl,
          Or.inl ⟨rfl, rfl⟩⟩
        cases h
        simp
  case MISSING_TOO_MUCH_DATA =>
    simp only [classifyOne, hst] at h
    by_cases hp : p = true
    · rw [if_pos hp] at h
      refine ⟨[], [], [], [k], ?_, Or.inl rfl,
        Or.inr ⟨rfl, Or.inr ⟨hst, hp⟩⟩, Or.inl ⟨rfl, rfl⟩⟩
      cases h
      simp
    · rw [if_neg hp] at h
      by_cases hd : 0 < (resp k).data.length
      · rw [if_pos hd] at h
        refine ⟨[resp k], [k], [], [], ?_, Or.inl rfl, Or.inl rfl,
          Or.inr ⟨rfl, rfl, Or.inr (Or.inr ⟨hst, by simpa using hp, hd⟩)⟩⟩
        cases h
        simp
      · rw [if_neg hd] at h
        refine ⟨[], [], [], [], ?_, Or.inl rfl, Or.inl rfl,
          Or.inl ⟨rfl, rfl⟩⟩
        cases h
        simp
  case BUCKET_NOT_FINALIZED =>
    simp only [classifyOne, hst] at h
    exact Option.noConfusion h

lemma classifyOne_keeps (resp : Key → TimeSeriesData) (u p : Bool)
    (k : Key) (s : GetState) (h : keepsEntry (resp k) u p) :
    classifyOne resp u p k s =
      some { s with inProgressKeys := s.inProgressKeys ++ [k] } := by
  rcases h with ⟨hst, hu⟩ | ⟨hst, hp⟩
  · simp [classifyOne, hst, hu]
  · simp [classifyOne, hst, hp]

lemma getWithClient_none_iff (resp : Key → TimeSeriesData) (u p : Bool)
    (ks : List Key) (s : GetState) :
    getWithClient resp u p ks s = none ↔
      ∃ k ∈ ks, (resp k).status = .BUCKET_NOT_FINALIZED := by
  induction ks generalizing s with
  | nil => simp [getWithClient]
  | cons k ks ih =>
    simp only [getWithClient]
    cases hcl : classifyOne resp u p k s with
    | none =>
      have hbnf := (classifyOne_none_iff resp u p k s).mp hcl
      exact iff_of_true rfl ⟨k, List.mem_cons_self k ks, hbnf⟩
    | some s1 =>
      have hnb : ¬ (resp k).status = .BUCKET_NOT_FINALIZED := by
        intro hbnf
        rw [(classifyOne_none_iff resp u p k s).mpr hbnf] at hcl
        exact Option.noConfusion hcl
      rw [ih s1]
      constructor
      · rintro ⟨k', hk', hb⟩
        exact ⟨k', List.mem_cons_of_mem _ hk', hb⟩
      · rintro ⟨k', hk', hb⟩
        rcases List.mem_cons.mp hk' with rfl | hmem
        · exact absurd hb hnb
        · exact ⟨k', hmem, hb⟩

lemma getWithClient_mono (resp : Key → TimeSeriesData) (u p : Bool)
    (ks : List Key) (s s' : GetState)
    (h : getWithClient resp u p ks s = some s') :
    (∀ x ∈ s.failedKeys, x ∈ s'.failedKeys) ∧
    (∀ x ∈ s.inProgressKeys, x ∈ s'.inProgressKeys) ∧
    (∀ x ∈ s.foundKeys, x ∈ s'.foundKeys) := by
  induction ks generalizing s with
  | nil =>
    simp only [getWithClient] at h
    cases h
    exact ⟨fun x hx => hx, fun x hx => hx, fun x hx => hx⟩
  | cons k ks ih =>
    simp only [getWithClient] at h
    cases hcl : classifyOne resp u p k s with
    | none => rw [hcl] at h; exact Option.noConfusion h
    | some s1 =>
      rw [hcl] at h
      obtain ⟨re, fo, fl, pr, hs1, -, -, -⟩ :=
        classifyOne_some_shape resp u p k s s1 hcl
      have hrec := ih s1 h
      subst hs1
      refine ⟨fun x hx => hrec.1 x ?_, fun x hx => hrec.2.1 x ?_,
        fun x hx => hrec.2.2 x ?_⟩
      · simpa using Or.inl hx
      · simpa using Or.inl hx
      · simpa using Or.inl hx

lemma getWithClient_failed_mem (resp : Key → TimeSeriesData) (u p : Bool)
    (ks : List Key) (s s' : GetState)
    (h : getWithClient resp u p ks s = some s') (x : Key)
    (hx : x ∈ s'.failedKeys) :
    x ∈ s.failedKeys ∨ (x ∈ ks ∧ failStatus (resp x)) := by
  induction ks generalizing s with
  | nil =>
    simp only [getWithClient] at h
    cases h
    exact Or.inl hx
  | cons k ks ih =>
    simp only [getWithClient] at h
    cases hcl : classifyOne resp u p k s with
    | none => rw [hcl] at h; exact Option.noConfusion h
    | some s1 =>
      rw [hcl] at h
      obtain ⟨re, fo, fl, pr, hs1, hfl, -, -⟩ :=
        classifyOne_some_shape resp u p k s s1 hcl
      rcases ih s1 h with h1 | ⟨hmem, hfs⟩
      · rw [hs1] at h1
        rcases List.mem_append.mp h1 with h2 | h2
        · exact Or.inl h2
        · rcases hfl with rfl | ⟨rfl, hfs⟩
          · exact absurd h2 (List.not_mem_nil x)
          · rcases List.mem_singleton.mp h2 with rfl
            exact Or.inr ⟨List.mem_cons_self x ks, hfs⟩
      · exact Or.inr ⟨List.mem_cons_of_mem _ hmem, hfs⟩

lemma getWithClient_prog_mem (resp : Key → TimeSeriesData) (u p : Bool)
    (ks : List Key) (s s' : GetState)
    (h : getWithClient resp u p ks s = some s') (x : Key)
    (hx : x ∈ s'.inProgressKeys) :
    x ∈ s.inProgressKeys ∨ (x ∈ ks ∧ keepsEntry (resp x) u p) := by
  induction ks generalizing s with
  | nil =>
    simp only [getWithClient] at h
    cases h
    exact Or.inl hx
  | cons k ks ih =>
    simp only [getWithClient] at h
    cases hcl : classifyOne resp u p k s with
    | none => rw [hcl] at h; exact Option.noConfusion h
    | some s1 =>
      rw [hcl] at h
      obtain ⟨re, fo, fl, pr, hs1, -, hpr, -⟩ :=
        classifyOne_some_shape resp u p k s s1 hcl
      rcases ih s1 h with h1 | ⟨hmem, hks⟩
      · rw [hs1] at h1
        rcases List.mem_append.mp h1 with h2 | h2
        · exact Or.inl h2
        · rcases hpr with rfl | ⟨rfl, hks⟩
          · exact absurd h2 (List.not_mem_nil x)
          · rcases List.mem_singleton.mp h2 with rfl
            exact Or.inr ⟨List.mem_cons_self x ks, hks⟩
      · exact Or.inr ⟨List.mem_cons_of_mem _ hmem, hks⟩

lemma getWithClient_found_mem (resp : Key → TimeSeriesData) (u p : Bool)
    (ks : List Key) (s s' : GetState)
    (h : getWithClient resp u p ks s = some s') (x : Key)
    (hx : x ∈ s'.foundKeys) :
    x ∈ s.foundKeys ∨ (x ∈ ks ∧ acceptsEntry (resp x) u p) := by
  induction ks generalizing s with
  | nil =>
    simp only [getWithClient] at h
    cases h
    exact Or.inl hx
  | cons k ks ih =>
    simp only [getWithClient] at h
    cases hcl : classifyOne resp u p k s with
    | none => rw [hcl] at h; exact Option.noConfusion h
    | some s1 =>
      rw [hcl] at h
      obtain ⟨re, fo, fl, pr, hs1, -, -, hfo⟩ :=
        classifyOne_some_shape resp u p k s s1 hcl
      rcases ih s1 h with h1 | ⟨hmem, hacc⟩
      · rw [hs1] at h1
        rcases List.mem_append.mp h1 with h2 | h2
        · exact Or.inl h2
        · rcases hfo with ⟨rfl, -⟩ | ⟨rfl, -, hacc⟩
          · exact absurd h2 (List.not_mem_nil x)
          · rcases List.mem_singleton.mp h2 with rfl
            exact Or.inr ⟨List.mem_cons_self x ks, hacc⟩
      · exact Or.inr ⟨List.mem_cons_of_mem _ hmem, hacc⟩

lemma getWithClient_keeps (resp : Key → TimeSeriesData) (u p : Bool)
    (ks : List Key) (s s' : GetState)
    (h : getWithClient resp u p ks s = some s') (k : Key) (hk : k ∈ ks)
    (hkeep : keepsEntry (resp k) u p) : k ∈ s'.inProgressKeys := by
  induction ks generalizing s with
  | nil => exact absurd hk (List.not_mem_nil k)
  | cons k' ks ih =>
    simp only [getWithClient] at h
    cases hcl : classifyOne resp u p k' s with
    | none => rw [hcl] at h; exact Option.noConfusion h
    | some s1 =>
      rw [hcl] at h
      rcases List.mem_cons.mp hk with rfl | hmem
      · have hcl2 := (classifyOne_keeps resp u p k s hkeep).symm.trans hcl
        have hs1 : s1 = { s with inProgressKeys := s.inProgressKeys ++ [k] } :=
          (Option.some.injEq _ _ ▸ hcl2).symm
        have hin : k ∈ s1.inProgressKeys := by
          rw [hs1]; simp
        exact (getWithClient_mono resp u p ks s1 s' h).2.1 k hin
      · exact ih s1 h hmem

lemma getWithClient_forall2 (R : Key → TimeSeriesData → Prop)
    (resp : Key → TimeSeriesData) (u p : Bool)
    (ks : List Key) (s s' : GetState)
    (h : getWithClient resp u p ks s = some s')
    (hbase : List.Forall₂ R s.foundKeys s.results)
    (hks : ∀ k ∈ ks, R k (resp k)) :
    List.Forall₂ R s'.foundKeys s'.results := by
  induction ks generalizing s with
  | nil =>
    simp only [getWithClient] at h
    cases h
    exact hbase
  | cons k ks ih =>
    simp only [getWithClient] at h
    cases hcl : classifyOne resp u p k s with
    | none => rw [hcl] at h; exact Option.noConfusion h
    | some s1 =>
      rw [hcl] at h
      obtain ⟨re, fo, fl, pr, hs1, -, -, hfo⟩ :=
        classifyOne_some_shape resp u p k s s1 hcl
      have hb1 : List.Forall₂ R s1.foundKeys s1.results := by
        rw [hs1]
        rcases hfo with ⟨rfl, rfl⟩ | ⟨rfl, rfl, -⟩
        · simpa using hbase
        · exact List.rel_append hbase
            (List.Forall₂.cons (hks k (List.mem_cons_self k ks)) List.Forall₂.nil)
      exact ih s1 h hb1 (fun k' hk' => hks k' (List.mem_cons_of_mem _ hk'))

lemma emptyResidual_false_of_prog (s : GetState) (k : Key)
    (hk : k ∈ s.inProgressKeys) : emptyResidual s = false := by
  have : s.inProgressKeys ≠ [] := List.ne_nil_of_mem hk
  simp [emptyResidual, List.isEmpty_iff, this]

lemma iterPhase2_prog_mono (strict last : Bool) (f2 : Key → TimeSeriesData)
    (s1 s2 : GetState) (h : iterPhase2 strict last f2 s1 = some s2)
    (k : Key) (hk : k ∈ s1.inProgressKeys) : k ∈ s2.inProgressKeys := by
  simp only [iterPhase2] at h
  by_cases he : s1.failedKeys.isEmpty = true
  · rw [if_pos he] at h
    cases h
    exact hk
  · rw [if_neg he] at h
    exact (getWithClient_mono _ _ _ _ _ _ h).2.1 k hk

lemma getIteration_ne_thrownRes (strict last : Bool)
    (f1 f2 : Key → TimeSeriesData) (orig ck : List Key)
    (res : List TimeSeriesData) (fnd : List Key)
    (hls : (last && strict) = false) :
    getIteration strict last f1 f2 orig ck res fnd ≠ .thrownRes := by
  intro hth
  simp only [getIteration] at hth
  split at hth
  · exact IterRes.noConfusion hth
  · split at hth
    · exact IterRes.noConfusion hth
    · split at hth
      · exact IterRes.noConfusion hth
      · split at hth
        · exact IterRes.noConfusion hth
        · split at hth
          · rename_i hcond
            rw [hls] at hcond
            exact Bool.noConfusion hcond
          · exact IterRes.noConfusion hth

lemma getLoop_ne_thrown (orig : List Key) (rem : List ReplicaResp) (i : Nat)
    (ck : List Key) (res : List TimeSeriesData) (fnd : List Key) :
    (getLoop false orig rem i ck res fnd).2 ≠ .thrown := by
  induction rem generalizing i ck res fnd with
  | nil => simp [getLoop]
  | cons fr rest ih =>
    obtain ⟨f1, f2⟩ := fr
    simp only [getLoop]
    cases hit : getIteration false rest.isEmpty f1 f2 orig ck res fnd with
    | aborted => simp
    | broke res2 fnd2 => simp
    | thrownRes =>
      exact absurd hit
        (getIteration_ne_thrownRes false rest.isEmpty f1 f2 orig ck res fnd
          (Bool.and_false _))
    | next nk res2 fnd2 => simpa using ih (i + 1) nk res2 fnd2

/-- Claim C3 (corrected counterexample): in strict mode on the last (and
only) replica, a key whose status is MISSING_TOO_MUCH_DATA with non-empty
data is accepted into the result as a success and the call returns
normally — it is not recorded as partial, which (on the last replica in
strict mode, residuals remaining) would have forced the call to throw. -/
theorem inProgress_partial_handling_counterexample :
    (seqGet true
      [(fun _ => ⟨.MISSING_TOO_MUCH_DATA, [7]⟩,
        fun _ => ⟨.MISSING_TOO_MUCH_DATA, [7]⟩)]
      [⟨"b", 0⟩]).2 =
      .ok [⟨"b", 0⟩] [⟨.MISSING_TOO_MUCH_DATA, [7]⟩] ∧
    (seqGet true
      [(fun _ => ⟨.MISSING_TOO_MUCH_DATA, [7]⟩,
        fun _ => ⟨.MISSING_TOO_MUCH_DATA, [7]⟩)]
      [⟨"b", 0⟩]).2 ≠ .thrown := by
  exact ⟨by decide, by decide⟩

/-- Claim C3 (amended): with the pointer-nullness flags exactly as the
sequential `get` instantiates them (in-progress pointer non-null iff
`strict || !last`, partial-data pointer non-null iff `!last`): on every
non-last replica a key with status SHARD_IN_PROGRESS or
MISSING_TOO_MUCH_DATA is recorded in the shared partial list and, unless
the iteration aborts, retried with restored shard id on the next replica;
on the last replica a SHARD_IN_PROGRESS key is accepted as success iff its
data is non-empty unless strict mode is on (then it is recorded partial),
while a MISSING_TOO_MUCH_DATA key is accepted as success iff its data is
non-empty even in strict mode, because the strict flag guards only the
in-progress pointer. -/
theorem inProgress_partial_handling :
    (∀ (strict : Bool) (f1 f2 : Key → TimeSeriesData) (orig ck : List Key)
      (res : List TimeSeriesData) (fnd : List Key) (k : Key),
      k ∈ ck →
      ((f1 k).status = .SHARD_IN_PROGRESS ∨
        (f1 k).status = .MISSING_TOO_MUCH_DATA) →
      (∀ s1, iterPhase1 strict false f1 ck res fnd = some s1 →
        k ∈ s1.inProgressKeys) ∧
      (getIteration strict false f1 f2 orig ck res fnd ≠ .aborted →
        ∃ nk res2 fnd2,
          getIteration strict false f1 f2 orig ck res fnd =
            .next nk res2 fnd2 ∧ restoreKey orig k ∈ nk)) ∧
    (∀ (resp : Key → TimeSeriesData) (k : Key) (s : GetState),
      (resp k).status = .SHARD_IN_PROGRESS →
      (classifyOne resp (true || !true) (!true) k s =
        some { s with inProgressKeys := s.inProgressKeys ++ [k] }) ∧
      (0 < (resp k).data.length →
        classifyOne resp (false || !true) (!true) k s =
          some { s with results := s.results ++ [resp k]
                        foundKeys := s.foundKeys ++ [k] }) ∧
      ((resp k).data.length = 0 →
        classifyOne resp (false || !true) (!true) k s = some s)) ∧
    (∀ (strict : Bool) (resp : Key → TimeSeriesData) (k : Key) (s : GetState),
      (resp k).status = .MISSING_TOO_MUCH_DATA →
      (0 < (resp k).data.length →
        classifyOne resp (strict || !true) (!true) k s =
          some { s with results := s.results ++ [resp k]
                        foundKeys := s.foundKeys ++ [k] }) ∧
      ((resp k).data.length = 0 →
        classifyOne resp (strict || !true) (!true) k s = some s)) := by
  refine ⟨?_, ?_, ?_⟩
  · intro strict f1 f2 orig ck res fnd k hk hst
    have hkeep : keepsEntry (f1 k) (strict || !false) (!false) := by
      rcases hst with hst | hst
      · exact Or.inl ⟨hst, by simp⟩
      · exact Or.inr ⟨hst, by simp⟩
    have hpart1 : ∀ s1, iterPhase1 strict false f1 ck res fnd = some s1 →
        k ∈ s1.inProgressKeys := by
      intro s1 h1
      exact getWithClient_keeps f1 _ _ ck _ s1 h1 k hk hkeep
    refine ⟨hpart1, ?_⟩
    intro hne
    cases h1 : iterPhase1 strict false f1 ck res fnd with
    | none =>
      exfalso
      apply hne
      simp only [getIteration, h1]
    | some s1 =>
      have hk1 : k ∈ s1.inProgressKeys := hpart1 s1 h1
      have he1 : emptyResidual s1 = false := emptyResidual_false_of_prog s1 k hk1
      cases h2 : iterPhase2 strict false f2 s1 with
      | none =>
        exfalso
        apply hne
        simp only [getIteration, h1]
        rw [if_neg (by simp [he1])]
        simp only [h2]
      | some s2 =>
        have hk2 : k ∈ s2.inProgressKeys :=
          iterPhase2_prog_mono strict false f2 s1 s2 h2 k hk1
        have he2 : emptyResidual s2 = false :=
          emptyResidual_false_of_prog s2 k hk2
        refine ⟨restoreShardIds orig (s2.failedKeys ++ s2.inProgressKeys),
          s2.results, s2.foundKeys, ?_, ?_⟩
        · simp only [getIteration, h1]
          rw [if_neg (by simp [he1])]
          simp only [h2]
          rw [if_neg (by simp [he2]), if_neg (by simp)]
        · exact List.mem_map_of_mem (restoreKey orig)
            (List.mem_append_right _ hk2)
  · intro resp k s hst
    refine ⟨by simp [classifyOne, hst], fun hd => ?_, fun hd => ?_⟩
    · simp [classifyOne, hst, hd]
    · simp [classifyOne, hst, hd]
  · intro strict resp k s hst
    refine ⟨fun hd => ?_, fun hd => ?_⟩
    · simp [classifyOne, hst, hd]
    · simp [classifyOne, hst, hd]

/-- Witness for the amended C3: a SHARD_IN_PROGRESS key on a non-last
replica in strict mode is forwarded (with restored shard id) to the next
replica. -/
theorem inProgress_partial_handling_witness :
    ∃ nk res2 fnd2,
      getIteration true false (fun _ => ⟨.SHARD_IN_PROGRESS, []⟩)
        (fun _ => ⟨.SHARD_IN_PROGRESS, []⟩) [⟨"c", 1⟩] [⟨"c", 1⟩] [] [] =
        .next nk res2 fnd2 ∧ restoreKey [⟨"c", 1⟩] ⟨"c", 1⟩ ∈ nk :=
  ((inProgress_partial_handling.1 true (fun _ => ⟨.SHARD_IN_PROGRESS, []⟩)
      (fun _ => ⟨.SHARD_IN_PROGRESS, []⟩) [⟨"c", 1⟩] [⟨"c", 1⟩] [] []
      ⟨"c", 1⟩ (by decide) (Or.inl rfl)).2 (by decide))

/-- Claim C4: in strict mode the sequential read throws exactly when, on
the last replica, residual failed or partial keys remain after the
in-service retry; an iteration never throws unless it is the last one in
strict mode; and with strict mode off the whole call never throws. -/
theorem strict_mode_throw :
    (∀ (f1 f2 : Key → TimeSeriesData) (orig ck : List Key)
      (res : List TimeSeriesData) (fnd : List Key),
      getIteration true true f1 f2 orig ck res fnd = .thrownRes ↔
        ∃ s1, iterPhase1 true true f1 ck res fnd = some s1 ∧
          emptyResidual s1 = false ∧
          ∃ s2, iterPhase2 true true f2 s1 = some s2 ∧
            emptyResidual s2 = false) ∧
    (∀ (strict last : Bool) (f1 f2 : Key → TimeSeriesData) (orig ck : List Key)
      (res : List TimeSeriesData) (fnd : List Key),
      (last && strict) = false →
      getIteration strict last f1 f2 orig ck res fnd ≠ .thrownRes) ∧
    (∀ (replicas : List ReplicaResp) (orig : List Key),
      (seqGet false replicas orig).2 ≠ .thrown) := by
  refine ⟨?_, ?_, ?_⟩
  · intro f1 f2 orig ck res fnd
    constructor
    · intro hth
      simp only [getIteration] at hth
      split at hth
      · exact IterRes.noConfusion hth
      · rename_i s1 h1
        split at hth
        · exact IterRes.noConfusion hth
        · rename_i he1
          split at hth
          · exact IterRes.noConfusion hth
          · rename_i s2 h2
            split at hth
            · exact IterRes.noConfusion hth
            · rename_i he2
              exact ⟨s1, h1, by simpa using he1, s2, h2, by simpa using he2⟩
    · rintro ⟨s1, h1, he1, s2, h2, he2⟩
      simp only [getIteration, h1]
      rw [if_neg (by simp [he1])]
      simp only [h2]
      rw [if_neg (by simp [he2])]
      rfl
  · exact fun strict last f1 f2 orig ck res fnd hls =>
      getIteration_ne_thrownRes strict last f1 f2 orig ck res fnd hls
  · exact fun replicas orig => getLoop_ne_thrown orig replicas 0 orig [] []

/-! ## Helper lemmas for the trace-instrumented replica loop -/

lemma append_eq_middle_split {α : Type} (l₁ l₂ t₁ t₂ : List α) (e : α)
    (h : l₁ ++ l₂ = t₁ ++ e :: t₂) :
    (∃ u, l₁ = t₁ ++ e :: u ∧ t₂ = u ++ l₂) ∨
    (∃ v, t₁ = l₁ ++ v ∧ l₂ = v ++ e :: t₂) := by
  induction l₁ generalizing t₁ with
  | nil => exact Or.inr ⟨t₁, by simp, by simpa using h⟩
  | cons a l₁ ih =>
    cases t₁ with
    | nil =>
      simp only [List.nil_append, List.cons_append, List.cons.injEq] at h
      exact Or.inl ⟨l₁, by simp [h.1], h.2.symm⟩
    | cons b t₁ =>
      simp only [List.cons_append, List.cons.injEq] at h
      rcases ih t₁ h.2 with ⟨u, hu1, hu2⟩ | ⟨v, hv1, hv2⟩
      · exact Or.inl ⟨u, by simp [h.1, hu1], hu2⟩
      · exact Or.inr ⟨v, by simp [h.1, hv1], hv2⟩

lemma km_not_classified (e : TimeSeriesData) (u p : Bool)
    (h : e.status = .KEY_MISSING) :
    ¬ failStatus e ∧ ¬ keepsEntry e u p ∧ ¬ acceptsEntry e u p := by
  refine ⟨?_, ?_, ?_⟩
  · simp [failStatus, h]
  · simp [keepsEntry, h]
  · simp [acceptsEntry, h]

lemma fail_not_keeps (e : TimeSeriesData) (u p : Bool) (h : failStatus e) :
    ¬ keepsEntry e u p := by
  rcases h with h | h | h <;> simp [keepsEntry, h]

lemma fail_not_accepts (e : TimeSeriesData) (u p : Bool) (h : failStatus e) :
    ¬ acceptsEntry e u p := by
  rcases h with h | h | h <;> simp [acceptsEntry, h]

lemma keeps_not_accepts (e : TimeSeriesData) (u p : Bool)
    (h : keepsEntry e u p) : ¬ acceptsEntry e u p := by
  rcases h with ⟨hst, hu⟩ | ⟨hst, hp⟩
  · simp [acceptsEntry, hst, hu]
  · simp [acceptsEntry, hst, hp]

lemma keeps_not_fail (e : TimeSeriesData) (u p : Bool)
    (h : keepsEntry e u p) : ¬ failStatus e := by
  rcases h with ⟨hst, -⟩ | ⟨hst, -⟩ <;> simp [failStatus, hst]

lemma restoreKey_key (orig : List Key) (y : Key) :
    (restoreKey orig y).key = y.key := by
  rcases h : keyShardLookup orig y.key with _ | id <;> simp [restoreKey, h]

lemma keyShardLookup_mem (orig : List Key) (name : String) (id : Int)
    (h : keyShardLookup orig name = some id) : (⟨name, id⟩ : Key) ∈ orig := by
  simp only [keyShardLookup, Option.map_eq_some'] at h
  obtain ⟨x, hfind, hid⟩ := h
  have hx : x ∈ orig := List.mem_reverse.mp (List.mem_of_find?_eq_some hfind)
  have hname : x.key = name := by
    have := List.find?_some hfind
    exact eq_of_beq this
  have : (⟨name, id⟩ : Key) = x := by
    cases x
    simp_all
  rw [this]
  exact hx

lemma restoreKey_mem (orig : List Key) (y : Key) (hy : y ∈ orig) :
    restoreKey orig y ∈ orig := by
  rcases h : keyShardLookup orig y.key with _ | id
  · simpa [restoreKey, h] using hy
  · have := keyShardLookup_mem orig y.key id h
    simpa [restoreKey, h] using this

lemma keyShardLookup_uniq (orig : List Key) (k : Key)
    (huniq : ∀ x ∈ orig, x.key = k.key → x = k) (id : Int)
    (h : keyShardLookup orig k.key = some id) : id = k.shardId := by
  have hmem := keyShardLookup_mem orig k.key id h
  have := huniq _ hmem rfl
  have := congrArg Key.shardId this
  simpa using this

lemma restoreKey_self (orig : List Key) (k : Key)
    (huniq : ∀ x ∈ orig, x.key = k.key → x = k) :
    restoreKey orig k = k := by
  rcases h : keyShardLookup orig k.key with _ | id
  · simp [restoreKey, h]
  · have hid := keyShardLookup_uniq orig k huniq id h
    simp [restoreKey, h, hid]

lemma link_head (replicas : List ReplicaResp) (f1 f2 : Key → TimeSeriesData)
    (rest : List ReplicaResp) (i : Nat)
    (hlink : ∀ j, ((f1, f2) :: rest : List ReplicaResp).get? j =
      replicas.get? (i + j)) :
    replicas.get? i = some (f1, f2) := by
  have := hlink 0
  simpa using this.symm

lemma link_tail (replicas : List ReplicaResp) (f1 f2 : Key → TimeSeriesData)
    (rest : List ReplicaResp) (i : Nat)
    (hlink : ∀ j, ((f1, f2) :: rest : List ReplicaResp).get? j =
      replicas.get? (i + j)) :
    ∀ j, rest.get? j = replicas.get? (i + 1 + j) := by
  intro j
  have := hlink (j + 1)
  rw [show i + (j + 1) = i + 1 + j by omega] at this
  simpa using this

lemma respAt_zero (replicas : List ReplicaResp) (i : Nat)
    (f1 f2 : Key → TimeSeriesData) (k : Key)
    (h : replicas.get? i = some (f1, f2)) :
    respAt replicas i 0 k = some (f1 k) := by
  simp only [respAt]
  rw [h]
  simp

lemma respAt_one (replicas : List ReplicaResp) (i : Nat)
    (f1 f2 : Key → TimeSeriesData) (k : Key)
    (h : replicas.get? i = some (f1, f2)) :
    respAt replicas i 1 k = some (f2 k) := by
  simp only [respAt]
  rw [h]
  simp

lemma iterPhase1_inv (strict last : Bool) (f1 : Key → TimeSeriesData)
    (ck : List Key) (res : List TimeSeriesData) (fnd : List Key)
    (s1 : GetState) (h1 : iterPhase1 strict last f1 ck res fnd = some s1) :
    (∀ x ∈ s1.failedKeys, x ∈ ck ∧ failStatus (f1 x)) ∧
    (∀ x ∈ s1.inProgressKeys,
      x ∈ ck ∧ keepsEntry (f1 x) (strict || !last) (!last)) ∧
    (∀ x ∈ s1.foundKeys,
      x ∈ fnd ∨ (x ∈ ck ∧ acceptsEntry (f1 x) (strict || !last) (!last))) := by
  simp only [iterPhase1] at h1
  refine ⟨fun x hx => ?_, fun x hx => ?_, fun x hx => ?_⟩
  · rcases getWithClient_failed_mem _ _ _ _ _ _ h1 x hx with h | h
    · exact absurd h (List.not_mem_nil x)
    · exact h
  · rcases getWithClient_prog_mem _ _ _ _ _ _ h1 x hx with h | h
    · exact absurd h (List.not_mem_nil x)
    · exact h
  · rcases getWithClient_found_mem _ _ _ _ _ _ h1 x hx with h | h
    · exact Or.inl h
    · exact Or.inr h

lemma iterPhase2_inv (strict last : Bool) (f2 : Key → TimeSeriesData)
    (s1 s2 : GetState) (h2 : iterPhase2 strict last f2 s1 = some s2) :
    (∀ x ∈ s2.failedKeys, x ∈ s1.failedKeys ∧ failStatus (f2 x)) ∧
    (∀ x ∈ s2.inProgressKeys, x ∈ s1.inProgressKeys ∨
      (x ∈ s1.failedKeys ∧ keepsEntry (f2 x) (strict || !last) (!last))) ∧
    (∀ x ∈ s2.foundKeys, x ∈ s1.foundKeys ∨
      (x ∈ s1.failedKeys ∧ acceptsEntry (f2 x) (strict || !last) (!last))) := by
  simp only [iterPhase2] at h2
  by_cases he : s1.failedKeys.isEmpty = true
  · rw [if_pos he] at h2
    cases h2
    have hfe : s1.failedKeys = [] := List.isEmpty_iff.mp he
    refine ⟨fun x hx => ?_, fun x hx => Or.inl hx, fun x hx => Or.inl hx⟩
    rw [hfe] at hx
    exact absurd hx (List.not_mem_nil x)
  · rw [if_neg he] at h2
    refine ⟨fun x hx => ?_, fun x hx => ?_, fun x hx => ?_⟩
    · rcases getWithClient_failed_mem _ _ _ _ _ _ h2 x hx with h | h
      · exact absurd h (List.not_mem_nil x)
      · exact h
    · rcases getWithClient_prog_mem _ _ _ _ _ _ h2 x hx with h | h
      · exact Or.inl h
      · exact Or.inr h
    · rcases getWithClient_found_mem _ _ _ _ _ _ h2 x hx with h | h
      · exact Or.inl h
      · exact Or.inr h

lemma iterPhase1_forall2 (R : Key → TimeSeriesData → Prop)
    (strict last : Bool) (f1 : Key → TimeSeriesData)
    (ck : List Key) (res : List TimeSeriesData) (fnd : List Key)
    (s1 : GetState) (h1 : iterPhase1 strict last f1 ck res fnd = some s1)
    (hbase : List.Forall₂ R fnd res) (hks : ∀ x ∈ ck, R x (f1 x)) :
    List.Forall₂ R s1.foundKeys s1.results := by
  simp only [iterPhase1] at h1
  exact getWithClient_forall2 R _ _ _ _ _ _ h1 hbase hks

lemma iterPhase2_forall2 (R : Key → TimeSeriesData → Prop)
    (strict last : Bool) (f2 : Key → TimeSeriesData) (s1 s2 : GetState)
    (h2 : iterPhase2 strict last f2 s1 = some s2)
    (hbase : List.Forall₂ R s1.foundKeys s1.results)
    (hks : ∀ x ∈ s1.failedKeys, R x (f2 x)) :
    List.Forall₂ R s2.foundKeys s2.results := by
  simp only [iterPhase2] at h2
  by_cases he : s1.failedKeys.isEmpty = true
  · rw [if_pos he] at h2
    cases h2
    exact hbase
  · rw [if_neg he] at h2
    exact getWithClient_forall2 R _ _ _ _ _ _ h2 hbase hks

lemma getIteration_run (strict last : Bool) (f1 f2 : Key → TimeSeriesData)
    (orig ck : List Key) (res : List TimeSeriesData) (fnd : List Key) :
    getIteration strict last f1 f2 orig ck res fnd = .aborted ∨
    ∃ s1 s2, iterPhase1 strict last f1 ck res fnd = some s1 ∧
      iterPhase2 strict last f2 s1 = some s2 ∧
      (getIteration strict last f1 f2 orig ck res fnd =
          .broke s2.results s2.foundKeys ∨
        getIteration strict last f1 f2 orig ck res fnd = .thrownRes ∨
        getIteration strict last f1 f2 orig ck res fnd =
          .next (restoreShardIds orig (s2.failedKeys ++ s2.inProgressKeys))
            s2.results s2.foundKeys) := by
  cases h1 : iterPhase1 strict last f1 ck res fnd with
  | none => exact Or.inl (by simp [getIteration, h1])
  | some s1 =>
    by_cases he1 : emptyResidual s1 = true
    · have hand := he1
      simp only [emptyResidual] at hand
      rw [Bool.and_eq_true] at hand
      have h2 : iterPhase2 strict last f2 s1 = some s1 := by
        simp [iterPhase2, hand.1]
      refine Or.inr ⟨s1, s1, rfl, h2, Or.inl ?_⟩
      simp only [getIteration, h1]
      rw [if_pos he1]
    · cases h2 : iterPhase2 strict last f2 s1 with
      | none =>
        refine Or.inl ?_
        simp only [getIteration, h1]
        rw [if_neg he1]
        simp only [h2]
      | some s2 =>
        by_cases he2 : emptyResidual s2 = true
        · refine Or.inr ⟨s1, s2, rfl, h2, Or.inl ?_⟩
          simp only [getIteration, h1]
          rw [if_neg he1]
          simp only [h2]
          rw [if_pos he2]
        · by_cases hls : (last && strict) = true
          · refine Or.inr ⟨s1, s2, rfl, h2, Or.inr (Or.inl ?_)⟩
            simp only [getIteration, h1]
            rw [if_neg he1]
            simp only [h2]
            rw [if_neg he2, if_pos hls]
          · refine Or.inr ⟨s1, s2, rfl, h2, Or.inr (Or.inr ?_)⟩
            simp only [getIteration, h1]
            rw [if_neg he1]
            simp only [h2]
            rw [if_neg he2, if_neg hls]

lemma iterTrace_mem (i : Nat) (strict last : Bool)
    (f1 : Key → TimeSeriesData) (ck : List Key)
    (res : List TimeSeriesData) (fnd : List Key) (ent : TraceEntry)
    (hmem : ent ∈ iterTrace i strict last f1 ck res fnd) :
    ent = (i, 0, ck) ∨
    ∃ s1, iterPhase1 strict last f1 ck res fnd = some s1 ∧
      ent = (i, 1, s1.failedKeys) ∧ emptyResidual s1 = false ∧
      s1.failedKeys.isEmpty = false := by
  simp only [iterTrace] at hmem
  rcases List.mem_cons.mp hmem with h | h
  · exact Or.inl h
  · cases h1 : iterPhase1 strict last f1 ck res fnd with
    | none =>
      simp only [h1] at h
      exact absurd h (List.not_mem_nil ent)
    | some s1 =>
      simp only [h1] at h
      by_cases he1 : emptyResidual s1 = true
      · rw [if_pos he1] at h
        exact absurd h (List.not_mem_nil ent)
      · rw [if_neg he1] at h
        by_cases hfe : s1.failedKeys.isEmpty = true
        · rw [if_pos hfe] at h
          exact absurd h (List.not_mem_nil ent)
        · rw [if_neg hfe] at h
          refine Or.inr ⟨s1, rfl, List.mem_singleton.mp h, ?_, ?_⟩
          · simpa using he1
          · simpa using hfe

lemma getIteration_aborted_of_bnfEntry (strict last : Bool)
    (f1 f2 : Key → TimeSeriesData) (orig ck : List Key)
    (res : List TimeSeriesData) (fnd : List Key)
    (replicas : List ReplicaResp) (i R a : Nat) (req : List Key) (k : Key)
    (e : TimeSeriesData)
    (hget : replicas.get? i = some (f1, f2))
    (hmem : ((R, a, req) : TraceEntry) ∈ iterTrace i strict last f1 ck res fnd)
    (hk : k ∈ req) (he : respAt replicas R a k = some e)
    (hbnf : e.status = .BUCKET_NOT_FINALIZED) :
    getIteration strict last f1 f2 orig ck res fnd = .aborted := by
  rcases iterTrace_mem i strict last f1 ck res fnd _ hmem with
    heq | ⟨s1, h1, heq, he1, hfe⟩
  · simp only [Prod.mk.injEq] at heq
    obtain ⟨hR, ha, hreq⟩ := heq
    rw [hreq] at hk
    rw [hR, ha] at he
    have hfk : e = f1 k := by
      have h' := (respAt_zero replicas i f1 f2 k hget).symm.trans he
      exact (Option.some_inj.mp h').symm
    have h1n : iterPhase1 strict last f1 ck res fnd = none := by
      simp only [iterPhase1]
      exact (getWithClient_none_iff f1 _ _ ck _).mpr ⟨k, hk, hfk ▸ hbnf⟩
    simp [getIteration, h1n]
  · simp only [Prod.mk.injEq] at heq
    obtain ⟨hR, ha, hreq⟩ := heq
    rw [hreq] at hk
    rw [hR, ha] at he
    have hfk : e = f2 k := by
      have h' := (respAt_one replicas i f1 f2 k hget).symm.trans he
      exact (Option.some_inj.mp h').symm
    have h2n : iterPhase2 strict last f2 s1 = none := by
      simp only [iterPhase2]
      rw [if_neg (by simp [hfe])]
      exact (getWithClient_none_iff f2 _ _ _ _).mpr ⟨k, hk, hfk ▸ hbnf⟩
    simp only [getIteration, h1]
    rw [if_neg (by simp [he1])]
    simp only [h2n]

lemma getLoop_bnf_aborted (strict : Bool) (replicas : List ReplicaResp)
    (orig : List Key) :
    ∀ (rem : List ReplicaResp) (i : Nat) (ck : List Key)
      (res : List TimeSeriesData) (fnd : List Key),
      (∀ j, rem.get? j = replicas.get? (i + j)) →
      ∀ (t₁ t₂ : List TraceEntry) (R a : Nat) (req : List Key) (k : Key)
        (e : TimeSeriesData),
        (getLoop strict orig rem i ck res fnd).1 = t₁ ++ (R, a, req) :: t₂ →
        k ∈ req → respAt replicas R a k = some e →
        e.status = .BUCKET_NOT_FINALIZED →
        (getLoop strict orig rem i ck res fnd).2 = .aborted := by
  intro rem
  induction rem with
  | nil =>
    intro i ck res fnd hlink t₁ t₂ R a req k e hsplit hk he hbnf
    simp [getLoop] at hsplit
  | cons fr rest ih =>
    obtain ⟨f1, f2⟩ := fr
    intro i ck res fnd hlink t₁ t₂ R a req k e hsplit hk he hbnf
    have hget := link_head replicas f1 f2 rest i hlink
    cases hit : getIteration strict rest.isEmpty f1 f2 orig ck res fnd with
    | aborted => simp [getLoop, hit]
    | broke res2 fnd2 =>
      exfalso
      simp only [getLoop, hit] at hsplit
      have hmem : ((R, a, req) : TraceEntry) ∈
          iterTrace i strict rest.isEmpty f1 ck res fnd := by
        rw [hsplit]
        exact List.mem_append_right _ (List.mem_cons_self _ _)
      have := getIteration_aborted_of_bnfEntry strict rest.isEmpty f1 f2
        orig ck res fnd replicas i R a req k e hget hmem hk he hbnf
      rw [hit] at this
      exact IterRes.noConfusion this
    | thrownRes =>
      exfalso
      simp only [getLoop, hit] at hsplit
      have hmem : ((R, a, req) : TraceEntry) ∈
          iterTrace i strict rest.isEmpty f1 ck res fnd := by
        rw [hsplit]
        exact List.mem_append_right _ (List.mem_cons_self _ _)
      have := getIteration_aborted_of_bnfEntry strict rest.isEmpty f1 f2
        orig ck res fnd replicas i R a req k e hget hmem hk he hbnf
      rw [hit] at this
      exact IterRes.noConfusion this
    | next nk res2 fnd2 =>
      simp only [getLoop, hit] at hsplit ⊢
      rcases append_eq_middle_split _ _ _ _ _ hsplit with
        ⟨u, hu1, -⟩ | ⟨v, -, hv2⟩
      · exfalso
        have hmem : ((R, a, req) : TraceEntry) ∈
            iterTrace i strict rest.isEmpty f1 ck res fnd := by
          rw [hu1]
          exact List.mem_append_right _ (List.mem_cons_self _ _)
        have := getIteration_aborted_of_bnfEntry strict rest.isEmpty f1 f2
          orig ck res fnd replicas i R a req k e hget hmem hk he hbnf
        rw [hit] at this
        exact IterRes.noConfusion this
      · exact ih (i + 1) nk res2 fnd2
          (link_tail replicas f1 f2 rest i hlink) v t₂ R a req k e hv2 hk he
          hbnf

/-- Claim C7: a per-key response with status BUCKET_NOT_FINALIZED hits the
fatal `CHECK(false)`: the classification of a request aborts iff some
requested key's response carries that status (so for every other status
the classification never aborts), and if any request actually sent during
a sequential read receives BUCKET_NOT_FINALIZED for one of its keys, the
whole call aborts. -/
theorem bucketNotFinalized_aborts :
    (∀ (resp : Key → TimeSeriesData) (u p : Bool) (ks : List Key)
      (s : GetState),
      getWithClient resp u p ks s = none ↔
        ∃ k ∈ ks, (resp k).status = .BUCKET_NOT_FINALIZED) ∧
    (∀ (strict : Bool) (replicas : List ReplicaResp) (orig : List Key)
      (t₁ t₂ : List TraceEntry) (R a : Nat) (req : List Key) (k : Key)
      (e : TimeSeriesData),
      (seqGet strict replicas orig).1 = t₁ ++ (R, a, req) :: t₂ →
      k ∈ req → respAt replicas R a k = some e →
      e.status = .BUCKET_NOT_FINALIZED →
      (seqGet strict replicas orig).2 = .aborted) := by
  constructor
  · exact getWithClient_none_iff
  · intro strict replicas orig t₁ t₂ R a req k e hsplit hk he hbnf
    exact getLoop_bnf_aborted strict replicas orig replicas 0 orig [] []
      (fun j => by simp) t₁ t₂ R a req k e hsplit hk he hbnf

/-- Witness for C7: one replica answering BUCKET_NOT_FINALIZED for the
only requested key makes the sequential read abort. -/
theorem bucketNotFinalized_aborts_witness :
    (seqGet false
      [(fun _ => ⟨.BUCKET_NOT_FINALIZED, []⟩,
        fun _ => ⟨.BUCKET_NOT_FINALIZED, []⟩)] [⟨"e", 0⟩]).2 = .aborted :=
  bucketNotFinalized_aborts.2 false
    [(fun _ => ⟨.BUCKET_NOT_FINALIZED, []⟩,
      fun _ => ⟨.BUCKET_NOT_FINALIZED, []⟩)] [⟨"e", 0⟩]
    [] [] 0 0 [⟨"e", 0⟩] ⟨"e", 0⟩ ⟨.BUCKET_NOT_FINALIZED, []⟩
    (by decide) (by decide) rfl rfl

lemma restore_subset (orig l : List Key) (hl : ∀ y ∈ l, y ∈ orig) :
    ∀ x ∈ restoreShardIds orig l, x ∈ orig := by
  intro x hx
  simp only [restoreShardIds, List.mem_map] at hx
  obtain ⟨y, hy, rfl⟩ := hx
  exact restoreKey_mem orig y (hl y hy)

lemma getLoop_ok_inv (strict : Bool) (replicas : List ReplicaResp)
    (orig : List Key) :
    ∀ (rem : List ReplicaResp) (i : Nat) (ck : List Key)
      (res : List TimeSeriesData) (fnd : List Key),
      (∀ j, rem.get? j = replicas.get? (i + j)) →
      (∀ x ∈ ck, x ∈ orig) →
      (∀ x ∈ fnd, x ∈ orig) →
      List.Forall₂ (Served replicas) fnd res →
      ∀ (fnd' : List Key) (res' : List TimeSeriesData),
        (getLoop strict orig rem i ck res fnd).2 = .ok fnd' res' →
        (∀ x ∈ fnd', x ∈ orig) ∧ List.Forall₂ (Served replicas) fnd' res' := by
  intro rem
  induction rem with
  | nil =>
    intro i ck res fnd hlink hck hfnd hcorr fnd' res' hok
    simp only [getLoop, SeqOutcome.ok.injEq] at hok
    obtain ⟨rfl, rfl⟩ := hok
    exact ⟨hfnd, hcorr⟩
  | cons fr rest ih =>
    obtain ⟨f1, f2⟩ := fr
    intro i ck res fnd hlink hck hfnd hcorr fnd' res' hok
    have hget := link_head replicas f1 f2 rest i hlink
    have hks1 : ∀ x ∈ ck, Served replicas x (f1 x) :=
      fun x _ => ⟨i, 0, respAt_zero replicas i f1 f2 x hget⟩
    rcases getIteration_run strict rest.isEmpty f1 f2 orig ck res fnd with
      hab | ⟨s1, s2, h1, h2, hcase⟩
    · simp only [getLoop, hab] at hok
      exact SeqOutcome.noConfusion hok
    · have hinv1 := iterPhase1_inv _ _ _ _ _ _ _ h1
      have hinv2 := iterPhase2_inv _ _ _ _ _ h2
      have hfnd2 : ∀ x ∈ s2.foundKeys, x ∈ orig := by
        intro x hx
        rcases hinv2.2.2 x hx with hx1 | ⟨hx1, -⟩
        · rcases hinv1.2.2 x hx1 with hx2 | ⟨hx2, -⟩
          · exact hfnd x hx2
          · exact hck x hx2
        · exact hck x (hinv1.1 x hx1).1
      have hcorr1 : List.Forall₂ (Served replicas) s1.foundKeys s1.results :=
        iterPhase1_forall2 _ _ _ _ _ _ _ _ h1 hcorr hks1
      have hcorr2 : List.Forall₂ (Served replicas) s2.foundKeys s2.results :=
        iterPhase2_forall2 _ _ _ _ _ _ h2 hcorr1
          (fun x _ => ⟨i, 1, respAt_one replicas i f1 f2 x hget⟩)
      rcases hcase with hcb | hct | hcn
      · simp only [getLoop, hcb, SeqOutcome.ok.injEq] at hok
        obtain ⟨rfl, rfl⟩ := hok
        exact ⟨hfnd2, hcorr2⟩
      · simp only [getLoop, hct] at hok
        exact SeqOutcome.noConfusion hok
      · simp only [getLoop, hcn] at hok
        have hnk : ∀ x ∈
            restoreShardIds orig (s2.failedKeys ++ s2.inProgressKeys),
            x ∈ orig := by
          apply restore_subset
          intro y hy
          rcases List.mem_append.mp hy with hy1 | hy1
          · exact hck y (hinv1.1 y (hinv2.1 y hy1).1).1
          · rcases hinv2.2.1 y hy1 with hy2 | ⟨hy2, -⟩
            · exact hck y (hinv1.2.1 y hy2).1
            · exact hck y (hinv1.1 y hy2).1
        exact ih (i + 1) _ _ _ (link_tail replicas f1 f2 rest i hlink)
          hnk hfnd2 hcorr2 fnd' res' hok

/-- Claim C8: for every sequential read in non-strict mode that returns
normally, every key written back into the request's key vector is a key of
the original request (no key is fabricated), and the returned result
entries correspond index-by-index to those keys: the i-th result entry is
a response some replica actually gave for the i-th key. -/
theorem result_keys_from_request (replicas : List ReplicaResp)
    (orig : List Key) (fnd : List Key) (res : List TimeSeriesData)
    (hok : (seqGet false replicas orig).2 = .ok fnd res) :
    (∀ x ∈ fnd, x ∈ orig) ∧ List.Forall₂ (Served replicas) fnd res := by
  exact getLoop_ok_inv false replicas orig replicas 0 orig [] []
    (fun j => by simp) (fun x hx => hx) (fun x hx => absurd hx (by simp))
    List.Forall₂.nil fnd res hok

/-- Witness for C8: a single replica answering OK for the only key yields
a result whose only key is the original key, served by that replica. -/
theorem result_keys_from_request_witness :
    (∀ x ∈ ([⟨"w", 5⟩] : List Key), x ∈ ([⟨"w", 5⟩] : List Key)) ∧
      List.Forall₂
        (Served [(fun _ => ⟨.OK, [1]⟩, fun _ => ⟨.OK, [1]⟩)])
        [⟨"w", 5⟩] [⟨.OK, [1]⟩] :=
  result_keys_from_request
    [(fun _ => ⟨.OK, [1]⟩, fun _ => ⟨.OK, [1]⟩)]
    [⟨"w", 5⟩] [⟨"w", 5⟩] [⟨.OK, [1]⟩] (by decide)

lemma getWithClient_km (resp : Key → TimeSeriesData) (u p : Bool)
    (ks : List Key) (s s' : GetState) (k : Key)
    (hrun : getWithClient resp u p ks s = some s')
    (hkm : (resp k).status = .KEY_MISSING) :
    (k ∉ s.failedKeys → k ∉ s'.failedKeys) ∧
    (k ∉ s.inProgressKeys → k ∉ s'.inProgressKeys) ∧
    (k ∉ s.foundKeys → k ∉ s'.foundKeys) := by
  obtain ⟨hnf, hnk, hna⟩ := km_not_classified (resp k) u p hkm
  refine ⟨fun h0 hx => ?_, fun h0 hx => ?_, fun h0 hx => ?_⟩
  · rcases getWithClient_failed_mem resp u p ks s s' hrun k hx with h | ⟨-, h⟩
    · exact h0 h
    · exact hnf h
  · rcases getWithClient_prog_mem resp u p ks s s' hrun k hx with h | ⟨-, h⟩
    · exact h0 h
    · exact hnk h
  · rcases getWithClient_found_mem resp u p ks s s' hrun k hx with h | ⟨-, h⟩
    · exact h0 h
    · exact hna h

lemma iterPhase1_km (strict last : Bool) (f1 : Key → TimeSeriesData)
    (ck : List Key) (res : List TimeSeriesData) (fnd : List Key)
    (s1 : GetState) (k : Key)
    (h1 : iterPhase1 strict last f1 ck res fnd = some s1)
    (hkm : (f1 k).status = .KEY_MISSING) (hfnd : k ∉ fnd) :
    k ∉ s1.foundKeys ∧ k ∉ s1.failedKeys ∧ k ∉ s1.inProgressKeys := by
  simp only [iterPhase1] at h1
  have h := getWithClient_km f1 _ _ ck _ s1 k h1 hkm
  exact ⟨h.2.2 hfnd, h.1 (List.not_mem_nil k), h.2.1 (List.not_mem_nil k)⟩

lemma iterPhase2_no_k (strict last : Bool) (f2 : Key → TimeSeriesData)
    (s1 s2 : GetState) (k : Key)
    (h2 : iterPhase2 strict last f2 s1 = some s2)
    (hf : k ∉ s1.foundKeys) (hfl : k ∉ s1.failedKeys)
    (hp : k ∉ s1.inProgressKeys) :
    k ∉ s2.foundKeys ∧ k ∉ s2.failedKeys ∧ k ∉ s2.inProgressKeys := by
  have hi2 := iterPhase2_inv strict last f2 s1 s2 h2
  refine ⟨fun hx => ?_, fun hx => ?_, fun hx => ?_⟩
  · rcases hi2.2.2 k hx with h | ⟨h, -⟩
    · exact hf h
    · exact hfl h
  · exact hfl (hi2.1 k hx).1
  · rcases hi2.2.1 k hx with h | ⟨h, -⟩
    · exact hp h
    · exact hfl h

lemma iterPhase2_km (strict last : Bool) (f2 : Key → TimeSeriesData)
    (s1 s2 : GetState) (k : Key)
    (h2 : iterPhase2 strict last f2 s1 = some s2)
    (hkm : (f2 k).status = .KEY_MISSING)
    (hf : k ∉ s1.foundKeys) (hp : k ∉ s1.inProgressKeys) :
    k ∉ s2.foundKeys ∧ k ∉ s2.failedKeys ∧ k ∉ s2.inProgressKeys := by
  simp only [iterPhase2] at h2
  by_cases he : s1.failedKeys.isEmpty = true
  · rw [if_pos he] at h2
    cases h2
    have hfe : s1.failedKeys = [] := List.isEmpty_iff.mp he
    exact ⟨hf, by simp [hfe], hp⟩
  · rw [if_neg he] at h2
    have h := getWithClient_km f2 _ _ _ _ s2 k h2 hkm
    exact ⟨h.2.2 hf, h.1 (List.not_mem_nil k), h.2.1 hp⟩

lemma s1_failed_excl (strict last : Bool) (f1 : Key → TimeSeriesData)
    (ck : List Key) (res : List TimeSeriesData) (fnd : List Key)
    (s1 : GetState) (k : Key)
    (h1 : iterPhase1 strict last f1 ck res fnd = some s1)
    (hkf : k ∈ s1.failedKeys) (hNF : k ∈ ck → k ∉ fnd) :
    k ∉ s1.foundKeys ∧ k ∉ s1.inProgressKeys := by
  have hi1 := iterPhase1_inv strict last f1 ck res fnd s1 h1
  obtain ⟨hck, hfs⟩ := hi1.1 k hkf
  have hfnd := hNF hck
  refine ⟨fun hx => ?_, fun hx => ?_⟩
  · rcases hi1.2.2 k hx with h | ⟨-, h⟩
    · exact hfnd h
    · exact fail_not_accepts _ _ _ hfs h
  · exact fail_not_keeps _ _ _ hfs (hi1.2.1 k hx).2

lemma s2_sets_in_ck (strict last : Bool) (f1 f2 : Key → TimeSeriesData)
    (ck : List Key) (res : List TimeSeriesData) (fnd : List Key)
    (s1 s2 : GetState)
    (h1 : iterPhase1 strict last f1 ck res fnd = some s1)
    (h2 : iterPhase2 strict last f2 s1 = some s2) :
    (∀ x ∈ s2.failedKeys, x ∈ ck) ∧ (∀ x ∈ s2.inProgressKeys, x ∈ ck) := by
  have hi1 := iterPhase1_inv strict last f1 ck res fnd s1 h1
  have hi2 := iterPhase2_inv strict last f2 s1 s2 h2
  constructor
  · intro x hx
    exact (hi1.1 x (hi2.1 x hx).1).1
  · intro x hx
    rcases hi2.2.1 x hx with h | ⟨h, -⟩
    · exact (hi1.2.1 x h).1
    · exact (hi1.1 x h).1

lemma next_no_found (strict last : Bool) (f1 f2 : Key → TimeSeriesData)
    (ck : List Key) (res : List TimeSeriesData) (fnd : List Key)
    (s1 s2 : GetState) (k : Key)
    (h1 : iterPhase1 strict last f1 ck res fnd = some s1)
    (h2 : iterPhase2 strict last f2 s1 = some s2)
    (hNF : k ∈ ck → k ∉ fnd)
    (hres : k ∈ s2.failedKeys ∨ k ∈ s2.inProgressKeys) :
    k ∉ s2.foundKeys := by
  have hi1 := iterPhase1_inv strict last f1 ck res fnd s1 h1
  have hi2 := iterPhase2_inv strict last f2 s1 s2 h2
  rcases hres with hres | hres
  · obtain ⟨hkf1, hfs2⟩ := hi2.1 k hres
    have hexcl := s1_failed_excl strict last f1 ck res fnd s1 k h1 hkf1 hNF
    intro hx
    rcases hi2.2.2 k hx with h | ⟨-, h⟩
    · exact hexcl.1 h
    · exact fail_not_accepts _ _ _ hfs2 h
  · rcases hi2.2.1 k hres with hres1 | ⟨hkf1, hkp2⟩
    · obtain ⟨hck, hkp1⟩ := hi1.2.1 k hres1
      have hfnd := hNF hck
      intro hx
      rcases hi2.2.2 k hx with h | ⟨hkf1, -⟩
      · rcases hi1.2.2 k h with h' | ⟨-, h'⟩
        · exact hfnd h'
        · exact keeps_not_accepts _ _ _ hkp1 h'
      · exact keeps_not_fail _ _ _ hkp1 (hi1.1 k hkf1).2
    · have hexcl := s1_failed_excl strict last f1 ck res fnd s1 k h1 hkf1 hNF
      intro hx
      rcases hi2.2.2 k hx with h | ⟨-, h⟩
      · exact hexcl.1 h
      · exact keeps_not_accepts _ _ _ hkp2 h

lemma iterTrace_no_k (strict last : Bool) (f1 : Key → TimeSeriesData)
    (ck : List Key) (res : List TimeSeriesData) (fnd : List Key)
    (i : Nat) (k : Key) (hknotin : k ∉ ck) :
    ∀ ent ∈ iterTrace i strict last f1 ck res fnd, k ∉ ent.2.2 := by
  intro ent hent hk
  rcases iterTrace_mem i strict last f1 ck res fnd ent hent with
    heq | ⟨s1, h1, heq, -, -⟩
  · rw [heq] at hk
    exact hknotin hk
  · rw [heq] at hk
    exact hknotin ((iterPhase1_inv _ _ _ _ _ _ _ h1).1 k hk).1

lemma nextkeys_noname (orig ck : List Key) (res : List TimeSeriesData)
    (fnd : List Key) (strict last : Bool) (f1 f2 : Key → TimeSeriesData)
    (s1 s2 : GetState) (k : Key)
    (h1 : iterPhase1 strict last f1 ck res fnd = some s1)
    (h2 : iterPhase2 strict last f2 s1 = some s2)
    (hck : ∀ x ∈ ck, x.key ≠ k.key) :
    ∀ x ∈ restoreShardIds orig (s2.failedKeys ++ s2.inProgressKeys),
      x.key ≠ k.key := by
  intro x hx
  simp only [restoreShardIds, List.mem_map] at hx
  obtain ⟨y, hy, rfl⟩ := hx
  rw [restoreKey_key]
  have hsets := s2_sets_in_ck strict last f1 f2 ck res fnd s1 s2 h1 h2
  rcases List.mem_append.mp hy with hy1 | hy1
  · exact hck y (hsets.1 y hy1)
  · exact hck y (hsets.2 y hy1)

lemma getLoop_nokname (strict : Bool) (orig : List Key) (k : Key) :
    ∀ (rem : List ReplicaResp) (i : Nat) (ck : List Key)
      (res : List TimeSeriesData) (fnd : List Key),
      (∀ x ∈ ck, x.key ≠ k.key) → k ∉ fnd →
      (∀ ent ∈ (getLoop strict orig rem i ck res fnd).1, k ∉ ent.2.2) ∧
      (∀ fnd' res',
        (getLoop strict orig rem i ck res fnd).2 = .ok fnd' res' →
        k ∉ fnd') := by
  intro rem
  induction rem with
  | nil =>
    intro i ck res fnd hck hfnd
    constructor
    · intro ent hent
      simp [getLoop] at hent
    · intro fnd' res' hok
      simp only [getLoop, SeqOutcome.ok.injEq] at hok
      obtain ⟨rfl, -⟩ := hok
      exact hfnd
  | cons fr rest ih =>
    obtain ⟨f1, f2⟩ := fr
    intro i ck res fnd hck hfnd
    have hknotin : k ∉ ck := fun h => hck k h rfl
    have hNF : k ∈ ck → k ∉ fnd := fun _ => hfnd
    rcases getIteration_run strict rest.isEmpty f1 f2 orig ck res fnd with
      hab | ⟨s1, s2, h1, h2, hcase⟩
    · constructor
      · intro ent hent
        simp only [getLoop, hab] at hent
        exact iterTrace_no_k strict rest.isEmpty f1 ck res fnd i k hknotin
          ent hent
      · intro fnd' res' hok
        simp only [getLoop, hab] at hok
        exact SeqOutcome.noConfusion hok
    · have hi1 := iterPhase1_inv strict rest.isEmpty f1 ck res fnd s1 h1
      have hS1 : k ∉ s1.foundKeys ∧ k ∉ s1.failedKeys ∧
          k ∉ s1.inProgressKeys := by
        refine ⟨fun hx => ?_, fun hx => ?_, fun hx => ?_⟩
        · rcases hi1.2.2 k hx with h | ⟨h, -⟩
          · exact hfnd h
          · exact hknotin h
        · exact hknotin (hi1.1 k hx).1
        · exact hknotin (hi1.2.1 k hx).1
      have hS2 := iterPhase2_no_k strict rest.isEmpty f2 s1 s2 k h2
        hS1.1 hS1.2.1 hS1.2.2
      rcases hcase with hcb | hct | hcn
      · constructor
        · intro ent hent
          simp only [getLoop, hcb] at hent
          exact iterTrace_no_k strict rest.isEmpty f1 ck res fnd i k hknotin
            ent hent
        · intro fnd' res' hok
          simp only [getLoop, hcb, SeqOutcome.ok.injEq] at hok
          obtain ⟨h', -⟩ := hok
          rw [← h']
          exact hS2.1
      · constructor
        · intro ent hent
          simp only [getLoop, hct] at hent
          exact iterTrace_no_k strict rest.isEmpty f1 ck res fnd i k hknotin
            ent hent
        · intro fnd' res' hok
          simp only [getLoop, hct] at hok
          exact SeqOutcome.noConfusion hok
      · have hck' := nextkeys_noname orig ck res fnd strict rest.isEmpty
          f1 f2 s1 s2 k h1 h2 hck
        have hrec := ih (i + 1)
          (restoreShardIds orig (s2.failedKeys ++ s2.inProgressKeys))
          s2.results s2.foundKeys hck' hS2.1
        constructor
        · intro ent hent
          simp only [getLoop, hcn] at hent
          rcases List.mem_append.mp hent with h | h
          · exact iterTrace_no_k strict rest.isEmpty f1 ck res fnd i k
              hknotin ent h
          · exact hrec.1 ent h
        · intro fnd' res' hok
          simp only [getLoop, hcn] at hok
          exact hrec.2 fnd' res' hok

lemma iter_km_core (strict last : Bool) (f1 f2 : Key → TimeSeriesData)
    (ck : List Key) (res : List TimeSeriesData) (fnd : List Key)
    (k : Key) (replicas : List ReplicaResp) (i : Nat)
    (hget : replicas.get? i = some (f1, f2))
    (hNF : k ∈ ck → k ∉ fnd)
    (t₁ t₂ : List TraceEntry) (R a : Nat) (req : List Key)
    (e : TimeSeriesData)
    (hsplit : iterTrace i strict last f1 ck res fnd = t₁ ++ (R, a, req) :: t₂)
    (hk : k ∈ req) (he : respAt replicas R a k = some e)
    (hkm : e.status = .KEY_MISSING) :
    (∀ ent ∈ t₂, k ∉ ent.2.2) ∧
    (∀ s1 s2, iterPhase1 strict last f1 ck res fnd = some s1 →
      iterPhase2 strict last f2 s1 = some s2 →
      k ∉ s2.foundKeys ∧ k ∉ s2.failedKeys ∧ k ∉ s2.inProgressKeys) := by
  cases t₁ with
  | nil =>
    simp only [iterTrace, List.nil_append, List.cons.injEq] at hsplit
    obtain ⟨hent, hrest⟩ := hsplit
    simp only [Prod.mk.injEq] at hent
    obtain ⟨hR, ha, hreq⟩ := hent
    rw [← hreq] at hk
    rw [← hR, ← ha] at he
    have hfk : e = f1 k := by
      have h' := (respAt_zero replicas i f1 f2 k hget).symm.trans he
      exact (Option.some_inj.mp h').symm
    have hkmf : (f1 k).status = .KEY_MISSING := hfk ▸ hkm
    have hfnd : k ∉ fnd := hNF hk
    constructor
    · intro ent hent2 hkent
      rw [← hrest] at hent2
      cases h1 : iterPhase1 strict last f1 ck res fnd with
      | none =>
        simp only [h1] at hent2
        exact absurd hent2 (List.not_mem_nil ent)
      | some s1 =>
        simp only [h1] at hent2
        by_cases he1 : emptyResidual s1 = true
        · rw [if_pos he1] at hent2
          exact absurd hent2 (List.not_mem_nil ent)
        · rw [if_neg he1] at hent2
          by_cases hfe : s1.failedKeys.isEmpty = true
          · rw [if_pos hfe] at hent2
            exact absurd hent2 (List.not_mem_nil ent)
          · rw [if_neg hfe] at hent2
            rw [List.mem_singleton.mp hent2] at hkent
            exact (iterPhase1_km strict last f1 ck res fnd s1 k h1 hkmf
              hfnd).2.1 hkent
    · intro s1 s2 h1 h2
      have hS1 := iterPhase1_km strict last f1 ck res fnd s1 k h1 hkmf hfnd
      exact iterPhase2_no_k strict last f2 s1 s2 k h2 hS1.1 hS1.2.1 hS1.2.2
  | cons x t₁' =>
    simp only [iterTrace, List.cons_append, List.cons.injEq] at hsplit
    obtain ⟨-, hrest⟩ := hsplit
    cases h1 : iterPhase1 strict last f1 ck res fnd with
    | none =>
      simp only [h1] at hrest
      exact absurd hrest (by simp)
    | some s1 =>
      simp only [h1] at hrest
      by_cases he1 : emptyResidual s1 = true
      · rw [if_pos he1] at hrest
        exact absurd hrest (by simp)
      · rw [if_neg he1] at hrest
        by_cases hfe : s1.failedKeys.isEmpty = true
        · rw [if_pos hfe] at hrest
          exact absurd hrest (by simp)
        · rw [if_neg hfe] at hrest
          cases t₁' with
          | cons z t₁'' =>
            exfalso
            simp only [List.cons_append, List.cons.injEq] at hrest
            exact absurd hrest.2 (by simp)
          | nil =>
            simp only [List.nil_append, List.cons.injEq] at hrest
            obtain ⟨hent, ht₂⟩ := hrest
            simp only [Prod.mk.injEq] at hent
            obtain ⟨hR, ha, hreq⟩ := hent
            rw [← hreq] at hk
            rw [← hR, ← ha] at he
            have hfk : e = f2 k := by
              have h' := (respAt_one replicas i f1 f2 k hget).symm.trans he
              exact (Option.some_inj.mp h').symm
            have hkmf : (f2 k).status = .KEY_MISSING := hfk ▸ hkm
            constructor
            · intro ent hent2
              rw [← ht₂] at hent2
              exact absurd hent2 (List.not_mem_nil ent)
            · intro s1' s2 h1' h2
              have hs1eq : s1' = s1 := (Option.some_inj.mp h1').symm
              subst hs1eq
              have hexcl := s1_failed_excl strict last f1 ck res fnd s1' k
                h1 hk hNF
              exact iterPhase2_km strict last f2 s1' s2 k h2 hkmf
                hexcl.1 hexcl.2

lemma getLoop_km (strict : Bool) (replicas : List ReplicaResp)
    (orig : List Key) (k : Key)
    (huniq : ∀ x ∈ orig, x.key = k.key → x = k) :
    ∀ (rem : List ReplicaResp) (i : Nat) (ck : List Key)
      (res : List TimeSeriesData) (fnd : List Key),
      (∀ j, rem.get? j = replicas.get? (i + j)) →
      (∀ x ∈ ck, x.key = k.key → x = k) →
      (k ∈ ck → k ∉ fnd) →
      ∀ (t₁ t₂ : List TraceEntry) (R a : Nat) (req : List Key)
        (e : TimeSeriesData),
        (getLoop strict orig rem i ck res fnd).1 = t₁ ++ (R, a, req) :: t₂ →
        k ∈ req → respAt replicas R a k = some e →
        e.status = .KEY_MISSING →
        (∀ ent ∈ t₂, k ∉ ent.2.2) ∧
        (∀ fnd' res',
          (getLoop strict orig rem i ck res fnd).2 = .ok fnd' res' →
          k ∉ fnd') := by
  intro rem
  induction rem with
  | nil =>
    intro i ck res fnd hlink hOnly hNF t₁ t₂ R a req e hsplit hk he hkm
    simp [getLoop] at hsplit
  | cons fr rest ih =>
    obtain ⟨f1, f2⟩ := fr
    intro i ck res fnd hlink hOnly hNF t₁ t₂ R a req e hsplit hk he hkm
    have hget := link_head replicas f1 f2 rest i hlink
    rcases getIteration_run strict rest.isEmpty f1 f2 orig ck res fnd with
      hab | ⟨s1, s2, h1, h2, hcase⟩
    · simp only [getLoop, hab] at hsplit ⊢
      have hcore := iter_km_core strict rest.isEmpty f1 f2 ck res fnd k
        replicas i hget hNF t₁ t₂ R a req e hsplit hk he hkm
      exact ⟨hcore.1, fun fnd' res' hok => SeqOutcome.noConfusion hok⟩
    · rcases hcase with hcb | hct | hcn
      · simp only [getLoop, hcb] at hsplit ⊢
        have hcore := iter_km_core strict rest.isEmpty f1 f2 ck res fnd k
          replicas i hget hNF t₁ t₂ R a req e hsplit hk he hkm
        refine ⟨hcore.1, fun fnd' res' hok => ?_⟩
        simp only [SeqOutcome.ok.injEq] at hok
        obtain ⟨h', -⟩ := hok
        rw [← h']
        exact (hcore.2 s1 s2 h1 h2).1
      · simp only [getLoop, hct] at hsplit ⊢
        have hcore := iter_km_core strict rest.isEmpty f1 f2 ck res fnd k
          replicas i hget hNF t₁ t₂ R a req e hsplit hk he hkm
        exact ⟨hcore.1, fun fnd' res' hok => SeqOutcome.noConfusion hok⟩
      · simp only [getLoop, hcn] at hsplit ⊢
        rcases append_eq_middle_split _ _ _ _ _ hsplit with
          ⟨u, hu1, hu2⟩ | ⟨v, hv1, hv2⟩
        · have hcore := iter_km_core strict rest.isEmpty f1 f2 ck res fnd k
            replicas i hget hNF t₁ u R a req e hu1 hk he hkm
          have hS2 := hcore.2 s1 s2 h1 h2
          have hck' : ∀ x ∈
              restoreShardIds orig (s2.failedKeys ++ s2.inProgressKeys),
              x.key ≠ k.key := by
            intro x hx hxk
            simp only [restoreShardIds, List.mem_map] at hx
            obtain ⟨y, hy, rfl⟩ := hx
            rw [restoreKey_key] at hxk
            have hsets := s2_sets_in_ck strict rest.isEmpty f1 f2 ck res fnd
              s1 s2 h1 h2
            have hyck : y ∈ ck := by
              rcases List.mem_append.mp hy with h | h
              · exact hsets.1 y h
              · exact hsets.2 y h
            rw [hOnly y hyck hxk] at hy
            rcases List.mem_append.mp hy with h | h
            · exact hS2.2.1 h
            · exact hS2.2.2 h
          have hrec := getLoop_nokname strict orig k rest (i + 1)
            (restoreShardIds orig (s2.failedKeys ++ s2.inProgressKeys))
            s2.results s2.foundKeys hck' hS2.1
          refine ⟨fun ent hent => ?_, fun fnd' res' hok =>
            hrec.2 fnd' res' hok⟩
          rw [hu2] at hent
          rcases List.mem_append.mp hent with h | h
          · exact hcore.1 ent h
          · exact hrec.1 ent h
        · have hsets := s2_sets_in_ck strict rest.isEmpty f1 f2 ck res fnd
            s1 s2 h1 h2
          have hOnly' : ∀ x ∈
              restoreShardIds orig (s2.failedKeys ++ s2.inProgressKeys),
              x.key = k.key → x = k := by
            intro x hx hxk
            simp only [restoreShardIds, List.mem_map] at hx
            obtain ⟨y, hy, rfl⟩ := hx
            rw [restoreKey_key] at hxk
            have hyck : y ∈ ck := by
              rcases List.mem_append.mp hy with h | h
              · exact hsets.1 y h
              · exact hsets.2 y h
            rw [hOnly y hyck hxk]
            exact restoreKey_self orig k huniq
          have hNF' : k ∈
              restoreShardIds orig (s2.failedKeys ++ s2.inProgressKeys) →
              k ∉ s2.foundKeys := by
            intro hknk
            simp only [restoreShardIds, List.mem_map] at hknk
            obtain ⟨y, hy, hyk⟩ := hknk
            have hyname : y.key = k.key := by
              have := congrArg Key.key hyk
              rw [restoreKey_key] at this
              exact this
            have hyck : y ∈ ck := by
              rcases List.mem_append.mp hy with h | h
              · exact hsets.1 y h
              · exact hsets.2 y h
            rw [hOnly y hyck hyname] at hy
            exact next_no_found strict rest.isEmpty f1 f2 ck res fnd s1 s2 k
              h1 h2 hNF (List.mem_append.mp hy)
          exact ih (i + 1) _ s2.results s2.foundKeys
            (link_tail replicas f1 f2 rest i hlink) hOnly' hNF'
            v t₂ R a req e hv2 hk he hkm

/-- Claim C2 counterexample (as stated, no distinct-name proviso): with
two request keys sharing the name "a", key (a,2) receives KEY_MISSING on
replica 0, yet the last-wins shard restoration map rewrites the failed key
(a,1) into (a,2), so (a,2) appears in the request sent to replica 1 and in
the returned result. -/
theorem keyMissing_never_retried_counterexample :
    (seqGet false
      [(fun q => if q.shardId = 1 then ⟨.RPC_FAIL, []⟩
                 else ⟨.KEY_MISSING, []⟩,
        fun _ => ⟨.RPC_FAIL, []⟩),
       (fun _ => ⟨.OK, [5]⟩, fun _ => ⟨.OK, [5]⟩)]
      [⟨"a", 1⟩, ⟨"a", 2⟩]).1 =
      [(0, 0, [⟨"a", 1⟩, ⟨"a", 2⟩]), (0, 1, [⟨"a", 1⟩]),
        (1, 0, [⟨"a", 2⟩])] ∧
    respAt
      [(fun q => if q.shardId = 1 then ⟨.RPC_FAIL, []⟩
                 else ⟨.KEY_MISSING, []⟩,
        fun _ => ⟨.RPC_FAIL, []⟩),
       (fun _ => ⟨.OK, [5]⟩, fun _ => ⟨.OK, [5]⟩)] 0 0 ⟨"a", 2⟩ =
      some ⟨.KEY_MISSING, []⟩ ∧
    (seqGet false
      [(fun q => if q.shardId = 1 then ⟨.RPC_FAIL, []⟩
                 else ⟨.KEY_MISSING, []⟩,
        fun _ => ⟨.RPC_FAIL, []⟩),
       (fun _ => ⟨.OK, [5]⟩, fun _ => ⟨.OK, [5]⟩)]
      [⟨"a", 1⟩, ⟨"a", 2⟩]).2 = .ok [⟨"a", 2⟩] [⟨.OK, [5]⟩] :=
  ⟨by decide, by decide, by decide⟩

/-- Claim C2 (amended): a key k whose server response on some actually
sent request is KEY_MISSING is never retried — it is added to neither the
failed set nor the partial set by the classification, it appears in no
later request of the sequential read, and it is absent from the returned
result — provided no other key of the original request shares k's name
(otherwise shard-id restoration can rewrite a same-named failed key into
an equal (name, shard) pair, as the counterexample shows). -/
theorem keyMissing_never_retried :
    (∀ (resp : Key → TimeSeriesData) (u p : Bool) (ks : List Key)
      (s s' : GetState) (k : Key),
      getWithClient resp u p ks s = some s' →
      (resp k).status = .KEY_MISSING →
      (k ∉ s.failedKeys → k ∉ s'.failedKeys) ∧
      (k ∉ s.inProgressKeys → k ∉ s'.inProgressKeys) ∧
      (k ∉ s.foundKeys → k ∉ s'.foundKeys)) ∧
    (∀ (strict : Bool) (replicas : List ReplicaResp) (orig : List Key)
      (k : Key),
      (∀ x ∈ orig, x.key = k.key → x = k) →
      ∀ (t₁ t₂ : List TraceEntry) (R a : Nat) (req : List Key)
        (e : TimeSeriesData),
        (seqGet strict replicas orig).1 = t₁ ++ (R, a, req) :: t₂ →
        k ∈ req → respAt replicas R a k = some e →
        e.status = .KEY_MISSING →
        (∀ ent ∈ t₂, k ∉ ent.2.2) ∧
        (∀ fnd res, (seqGet strict replicas orig).2 = .ok fnd res →
          k ∉ fnd)) := by
  constructor
  · exact fun resp u p ks s s' k h hkm =>
      getWithClient_km resp u p ks s s' k h hkm
  · intro strict replicas orig k huniq t₁ t₂ R a req e hsplit hk he hkm
    exact getLoop_km strict replicas orig k huniq replicas 0 orig [] []
      (fun j => by simp) huniq (fun _ => List.not_mem_nil k)
      t₁ t₂ R a req e hsplit hk he hkm

/-- Witness for the amended C2: key (y,2) gets KEY_MISSING on replica 0 of
a two-replica read whose other key (x,1) fails over; (y,2) appears in none
of the later requests and is absent from the returned result. -/
theorem keyMissing_never_retried_witness :
    (∀ ent ∈ [((0 : Nat), (1 : Nat), [(⟨"x", 1⟩ : Key)]),
        (1, 0, [⟨"x", 1⟩])], (⟨"y", 2⟩ : Key) ∉ ent.2.2) ∧
    (∀ fnd res,
      (seqGet false
        [(fun q => if q.key = "y" then ⟨.KEY_MISSING, []⟩
                   else ⟨.RPC_FAIL, []⟩,
          fun _ => ⟨.RPC_FAIL, []⟩),
         (fun _ => ⟨.OK, [3]⟩, fun _ => ⟨.OK, [3]⟩)]
        [⟨"x", 1⟩, ⟨"y", 2⟩]).2 = .ok fnd res →
      (⟨"y", 2⟩ : Key) ∉ fnd) :=
  keyMissing_never_retried.2 false
    [(fun q => if q.key = "y" then ⟨.KEY_MISSING, []⟩ else ⟨.RPC_FAIL, []⟩,
      fun _ => ⟨.RPC_FAIL, []⟩),
     (fun _ => ⟨.OK, [3]⟩, fun _ => ⟨.OK, [3]⟩)]
    [⟨"x", 1⟩, ⟨"y", 2⟩] ⟨"y", 2⟩ (by decide)
    [] [((0 : Nat), (1 : Nat), [(⟨"x", 1⟩ : Key)]), (1, 0, [⟨"x", 1⟩])]
    0 0 [⟨"x", 1⟩, ⟨"y", 2⟩] ⟨.KEY_MISSING, []⟩
    (by decide) (by decide) (by decide) rfl

/-- Witness for C4: one replica returning RPC_FAIL for the only key in
strict mode makes the iteration throw, and the same configuration without
strict mode never throws. -/
theorem strict_mode_throw_witness :
    getIteration true true (fun _ => ⟨.RPC_FAIL, []⟩)
      (fun _ => ⟨.RPC_FAIL, []⟩) [⟨"d", 0⟩] [⟨"d", 0⟩] [] [] = .thrownRes ∧
    (seqGet false [(fun _ => ⟨.RPC_FAIL, []⟩, fun _ => ⟨.RPC_FAIL, []⟩)]
      [⟨"d", 0⟩]).2 ≠ .thrown :=
  ⟨(strict_mode_throw.1 (fun _ => ⟨.RPC_FAIL, []⟩) (fun _ => ⟨.RPC_FAIL, []⟩)
      [⟨"d", 0⟩] [⟨"d", 0⟩] [] []).mpr
    ⟨⟨[], [], [⟨"d", 0⟩], []⟩, by decide, by decide,
     ⟨[], [], [⟨"d", 0⟩], []⟩, by decide, by decide⟩,
   strict_mode_throw.2.2 [(fun _ => ⟨.RPC_FAIL, []⟩, fun _ => ⟨.RPC_FAIL, []⟩)]
     [⟨"d", 0⟩]⟩

end Beringei
